import Mathlib

/-!
Verification development for the Servachok game server.

The server core (`server.py`) is a three-worker pipeline; the part relevant
here is the single-threaded handler `Server.__handler`, which consumes
inbound client events one at a time and mutates the shared game state
(players, the planet cache, the two session flags), plus the connection
acceptor `Server.__wait_for_client` and the wire framing in
`lib/events.py`.  This file shallowly embeds those parts: the handler
becomes a pure function from a server state and an inbound event to a new
server state together with an optional runtime error (a Python exception
raised mid-handler leaves the mutations made so far in place, so the state
is returned alongside the error marker), and the acceptor/handler steps are
collected into a step relation used for reachability statements.
-/

namespace Servachok

/-- Runtime errors the handler can raise: a missing dictionary key
(`KeyError`, e.g. an unknown planet id indexing `Planet.cache`) or an
out-of-range list index (`IndexError`, the `active_players[0]` read in the
game-over branch). -/
inductive HErr where
  | keyError
  | indexError
deriving DecidableEq

/-- Exact-arithmetic model of Python's `round(a / 100.0)` as used at
server.py:164 (`round(Planet.cache[planet_id].units_count * int(percentage) / 100.0)`).
Python's `round` ties to the nearest even integer (banker's rounding); we
compute on the exact rational a/100 using integer floor division.  The
source computes in IEEE doubles (`a` is converted to a double, divided by
`100.0`, and the rounded quotient rounded to an integer), so this exact
model coincides with the source only in a bounded regime: for
`0 <= a <= 100 * 2^46` the conversion of `a` is exact (`a < 2^53`), the
quotient's representation error is below `2^-7` — too small to move a
multiple of `1/100` across a half-integer boundary — and exact ties
(`a = 50 mod 100`) hit a representable half-integer and tie-break to even
on both sides, so the double computation returns exactly this value.
Beyond that regime the two diverge: for `a = (2^53 + 1) * 100` Python's
float pipeline yields `2^53 + 2` where this definition yields `2^53 + 1`.
Every theorem below that relates a select's arithmetic to the source
therefore bounds the participating unit counts by `unitsFloatSafe = 2^46`
and the percentage by 100, confining the statement to inputs where this
definition provably is the source's value. -/
def pyRound100 (a : Int) : Int :=
  let f := a / 100
  let r := a % 100
  if 2 * r < 100 then f
  else if 100 < 2 * r then f + 1
  else if f % 2 = 0 then f else f + 1

/-- A connected participant.  Modelled from the spec (player.py is not part
of the given sources) and from the uses in server.py: integer id assigned at
accept time, `ready` and `rendered` flags both initially false, and the list
of owned unit ids (`object_ids`), initially empty.  The network address is
irrelevant to every claim and is omitted. -/
structure Player where
  id : Nat
  ready : Bool
  rendered : Bool
  object_ids : List Int
deriving DecidableEq

/-- A game-world planet.  Modelled from the spec (planet.py is not part of
the given sources) and from the uses in server.py: integer id, owner
(a player id or none) and a unit-count balance. -/
structure Planet where
  id : Int
  owner : Option Nat
  units_count : Int
deriving DecidableEq

/-- Outbound (server→client) events, one constructor per notification the
handler can enqueue, carrying exactly the data server.py places in the
payload. -/
inductive SEv where
  | connect (playerId : Nat)
  | readyEv (playerId : Nat) (ready : Bool)
  | mapInit (map : List Planet)
  | gameStarted
  | moveEv (playerId : Nat) (unitId : Int)
  | selectEv (punits : List (Int × List Int))
  | addHpEv (playerId : Nat) (planetId : Int) (hp : Int)
  | damageEv (planetId : Int) (units : Int) (owner : Option Nat) (unitId : Int)
  | gameOver (winner : Nat)
deriving DecidableEq

/-- Inbound (client→server) events.  Each carries the id of the sending
player (the handler receives the Player object attached at receive time) and
the payload fields server.py actually reads.  In the `damage` event the
`hp_count` field is optional: server.py reads it with
`event.payload.get('hp_count', 1)`; every other field is accessed by
mandatory indexing. -/
inductive CEvent where
  | ready (pid : Nat) (val : Bool)
  | rendered (pid : Nat)
  | move (pid : Nat) (unitId : Int)
  | select (pid : Nat) (froms : List Int) (percentage : Int)
  | add_hp (pid : Nat) (planetId : Int) (hp : Int)
  | damage (pid : Nat) (planetId : Int) (unitId : Int) (hpOpt : Option Int)
deriving DecidableEq

/-- The server's shared mutable state: the player map and connection list
(in insertion order; the socket keys are represented by the 1:1 associated
player ids), the planet cache (`Planet.cache`, in insertion order), the two
session flags, the player-id counter `next_player_id`, the state of the
monotonic unit-id generator (`ID_GENERATOR` from utils.py, modelled from the
spec as a counter handing out consecutive integers), a count of how many
times map generation has run (the external `MapGenerator` collaborator), and
the outbound queue contents in insertion order. -/
structure ServerState where
  players : List Player
  clients : List Nat
  planets : List Planet
  readiness : Bool
  game_started : Bool
  next_player_id : Nat
  idGen : Int
  mapGenCount : Nat
  outbox : List SEv
deriving DecidableEq

/-- Update the first element satisfying `p` (a Python dict stores one object
per key, and server.py mutates that object in place). -/
def updateFirst (p : α → Bool) (f : α → α) : List α → List α
  | [] => []
  | x :: xs => if p x then f x :: xs else x :: updateFirst p f xs

def findPlayer (ps : List Player) (pid : Nat) : Option Player :=
  ps.find? (fun q => decide (q.id = pid))

def updPlayer (ps : List Player) (pid : Nat) (f : Player → Player) : List Player :=
  updateFirst (fun q => decide (q.id = pid)) f ps

def findPlanet (ps : List Planet) (planetId : Int) : Option Planet :=
  ps.find? (fun pl => decide (pl.id = planetId))

def updPlanet (ps : List Planet) (planetId : Int) (f : Planet → Planet) : List Planet :=
  updateFirst (fun pl => decide (pl.id = planetId)) f ps

/-- The ids handed out by `[next(ID_GENERATOR) for _ in range(k)]` when the
generator counter stands at `g`: the `k` consecutive integers from `g`
(none when `k` is not positive, matching Python's empty range). -/
def mintIds (g k : Int) : List Int :=
  (List.range k.toNat).map (fun (i : Nat) => g + (i : Int))

/-- Python dict assignment `d[k] = v` preserving insertion order. -/
def dictSet (d : List (Int × List Int)) (k : Int) (v : List Int) : List (Int × List Int) :=
  if d.any (fun kv => decide (kv.1 = k)) then
    d.map (fun kv => if kv.1 = k then (k, v) else kv)
  else d ++ [(k, v)]

/-- Does a player qualify as active in the game-over scan: at least one
unit and at least one owned planet (server.py:215-219). -/
def qualifies (planets : List Planet) (q : Player) : Bool :=
  !q.object_ids.isEmpty && planets.any (fun pl => decide (pl.owner = some q.id))

/-- The game-over scan of server.py:212-221, faithful to the `for ... else`
loop: walk the players in order, collect the ids of qualifying players, and
break out (second component `true`) as soon as two have been collected.
The `else` branch (game over) runs exactly when the loop completes without
breaking. -/
def scanActive (planets : List Planet) : List Player → List Nat → List Nat × Bool
  | [], acc => (acc, false)
  | q :: rest, acc =>
    let acc' := if qualifies planets q then acc ++ [q.id] else acc
    if 2 ≤ acc'.length then (acc', true) else scanActive planets rest acc'

/-- The damage mutation of server.py:190-208 (everything guarded by
`if unit_id in player.object_ids`): reinforcement or attack on the planet,
possible ownership flip at negative units, removal of the consumed unit and
the damage broadcast.  `q` and `pl` are the already-looked-up sender and
target planet. -/
def damageMid (s : ServerState) (pid : Nat) (planetId unitId hp : Int)
    (q : Player) (pl : Planet) : ServerState :=
  if unitId ∈ q.object_ids then
    let newPl :=
      if pl.owner = some pid then { pl with units_count := pl.units_count + hp }
      else if pl.units_count - hp < 0 then
        { pl with owner := some pid, units_count := -(pl.units_count - hp) }
      else { pl with units_count := pl.units_count - hp }
    { s with
      planets := updPlanet s.planets planetId (fun _ => newPl),
      players := updPlayer s.players pid
        (fun r => { r with object_ids := r.object_ids.erase unitId }),
      outbox := s.outbox ++ [.damageEv planetId newPl.units_count newPl.owner unitId] }
  else s

/-- The select loop of server.py:160-167: for each requested source planet
owned by the sender, compute the ship count, decrement the planet, mint
fresh unit ids from the generator and hand them to the sender.  A missing
planet id raises `KeyError` (dict indexing), keeping the mutations made so
far. -/
def selectLoop (pid : Nat) (percentage : Int) :
    List Int → ServerState → List (Int × List Int) →
    ServerState × List (Int × List Int) × Option HErr
  | [], s, punits => (s, punits, none)
  | planetId :: rest, s, punits =>
    match findPlanet s.planets planetId with
    | none => (s, punits, some .keyError)
    | some pl =>
      if pl.owner = some pid then
        let k := pyRound100 (pl.units_count * percentage)
        let newIds := mintIds s.idGen k
        let s' := { s with
          planets := updPlanet s.planets planetId
            (fun p => { p with units_count := p.units_count - k }),
          idGen := s.idGen + k.toNat,
          players := updPlayer s.players pid
            (fun r => { r with object_ids := r.object_ids ++ newIds }) }
        selectLoop pid percentage rest s' (dictSet punits planetId newIds)
      else selectLoop pid percentage rest s punits

/-- The server state after one owned-planet iteration of the select loop
(server.py:162-167) with ship count `k`: the planet decremented by `k`, the
generator advanced by the `k` minted ids, and the batch appended to the
sender's unit set.  This is not a separate source construct —
`selectLoop_cons_owned` below proves it is exactly the intermediate state
the loop body builds; naming it keeps the loop-invariant proofs
readable. -/
def selectStep (s : ServerState) (pid : Nat) (planetId k : Int) : ServerState :=
  { s with
    planets := updPlanet s.planets planetId
      (fun p => { p with units_count := p.units_count - k }),
    idGen := s.idGen + k.toNat,
    players := updPlayer s.players pid
      (fun r => { r with object_ids := r.object_ids ++ mintIds s.idGen k }) }

/-- One iteration of `Server.__handler` (server.py:114-231) applied to one
dequeued inbound event.  `gen` is the external map-generation collaborator:
it receives the current player ids and returns the planet cache contents it
populates.  The result carries the post-event state and, when the handler
raises, the Python exception that escaped (mutations made before the raise
are kept, as in the source, where the shared objects were updated in
place). -/
def handleEvent (gen : List Nat → List Planet) (s : ServerState) (e : CEvent) :
    ServerState × Option HErr :=
  match e with
  | .ready pid val =>
    match findPlayer s.players pid with
    | none => (s, some .keyError)
    | some _ =>
      let players1 := updPlayer s.players pid (fun q => { q with ready := val })
      let s1 := { s with players := players1, outbox := s.outbox ++ [.readyEv pid val] }
      if players1.all (fun q => q.ready) ∧ 1 < players1.length then
        let newMap := gen (players1.map (fun q => q.id))
        ({ s1 with planets := newMap, readiness := true,
                   mapGenCount := s1.mapGenCount + 1,
                   outbox := s1.outbox ++ [.mapInit newMap] }, none)
      else (s1, none)
  | .rendered pid =>
    match findPlayer s.players pid with
    | none => (s, some .keyError)
    | some _ =>
      let players1 := updPlayer s.players pid (fun q => { q with rendered := true })
      if players1.all (fun q => q.rendered) then
        ({ s with players := players1, game_started := true,
                  outbox := s.outbox ++ [.gameStarted] }, none)
      else ({ s with players := players1 }, none)
  | .move pid unitId =>
    if s.game_started then
      match findPlayer s.players pid with
      | none => (s, some .keyError)
      | some q =>
        if unitId ∈ q.object_ids then
          ({ s with outbox := s.outbox ++ [.moveEv pid unitId] }, none)
        else (s, none)
    else (s, none)
  | .select pid froms percentage =>
    if s.game_started then
      match findPlayer s.players pid with
      | none => (s, some .keyError)
      | some _ =>
        match selectLoop pid percentage froms s [] with
        | (s', punits, none) =>
          ({ s' with outbox := s'.outbox ++ [.selectEv punits] }, none)
        | (s', _, some err) => (s', some err)
    else (s, none)
  | .add_hp pid planetId hp =>
    if s.game_started then
      match findPlayer s.players pid with
      | none => (s, some .keyError)
      | some _ =>
        match findPlanet s.planets planetId with
        | none => (s, some .keyError)
        | some pl =>
          if pl.owner = some pid then
            ({ s with
               planets := updPlanet s.planets planetId
                 (fun p => { p with units_count := p.units_count + hp }),
               outbox := s.outbox ++ [.addHpEv pid planetId hp] }, none)
          else (s, none)
    else (s, none)
  | .damage pid planetId unitId hpOpt =>
    if s.game_started then
      match findPlayer s.players pid with
      | none => (s, some .keyError)
      | some q =>
        match findPlanet s.planets planetId with
        | none => (s, some .keyError)
        | some pl =>
          let mid := damageMid s pid planetId unitId (hpOpt.getD 1) q pl
          match scanActive mid.planets mid.players [] with
          | (_, true) => (mid, none)
          | ([], false) => (mid, some .indexError)
          | (w :: _, false) =>
            ({ mid with readiness := false, game_started := false,
                        players := [], clients := [],
                        outbox := mid.outbox ++ [.gameOver w] }, none)
    else (s, none)

/-- `Server.__wait_for_client` (server.py:57-70) when its phase/capacity
guard passes: accept the connection, bump `next_player_id`, register the new
player and broadcast the connect event. -/
def acceptClient (s : ServerState) : ServerState :=
  let pid := s.next_player_id + 1
  { s with
    clients := s.clients ++ [pid],
    next_player_id := pid,
    players := s.players ++ [{ id := pid, ready := false, rendered := false, object_ids := [] }],
    outbox := s.outbox ++ [.connect pid] }

/-- `Server.__remove_client` (server.py:72-75): drop the connection and its
player. -/
def removeClient (s : ServerState) (c : Nat) : ServerState :=
  { s with
    clients := s.clients.erase c,
    players := s.players.filter (fun q => !decide (q.id = c)) }

/-- The state of a freshly constructed `Server` (server.py:27-40): no
players, no clients, empty planet cache, both flags false, player-id counter
at 0. -/
def initState : ServerState :=
  { players := [], clients := [], planets := [], readiness := false,
    game_started := false, next_player_id := 0, idGen := 0,
    mapGenCount := 0, outbox := [] }

/-- One observable transition of the server object, labelled with the list
of player ids assigned during it: a connection accept (possible only under
the source's phase/capacity guard), a successfully handled inbound event
(for some behaviour of the external map generator), or a client disconnect. -/
inductive TStep : ServerState → List Nat → ServerState → Prop where
  | accept {s : ServerState} :
      s.game_started = false → s.readiness = false → s.clients.length < 8 →
      TStep s [s.next_player_id + 1] (acceptClient s)
  | handle {s s' : ServerState} (gen : List Nat → List Planet) (e : CEvent) :
      handleEvent gen s e = (s', none) → TStep s [] s'
  | disconnect {s : ServerState} (c : Nat) :
      c ∈ s.clients → TStep s [] (removeClient s c)

/-- A state is reachable with `log` the concatenated list of player ids
assigned on the way, in assignment order. -/
inductive ReachLog : ServerState → List Nat → Prop where
  | init : ReachLog initState []
  | step {s s' : ServerState} {log δ : List Nat} :
      ReachLog s log → TStep s δ s' → ReachLog s' (log ++ δ)

/-- Plain reachability of a server state from the freshly constructed
server. -/
def Reachable (s : ServerState) : Prop := ∃ log, ReachLog s log

/-! ### Wire framing (lib/events.py)

`ServerEvent.request` serializes an outbound event as
`struct.pack('i', len(string)) + string.encode('utf-8')` where `string` is
`json.dumps({'name': self.name, **self.payload})`; `ClientEvent` decodes the
reverse direction with `json.loads`.  The embedding models JSON values as
the inductive `JVal`, `json.dumps` (default separators `', '` and `': '`,
`ensure_ascii=True`) as `dumpsV`, and `json.loads` as a fuel-indexed
recursive-descent reader restricted to the grammar `dumps` emits.  Since the
well-formedness side condition keeps all strings printable-ASCII without
quotes or backslashes, the dumps output is pure ASCII, so UTF-8 encoding is
byte-per-char and `len(string)` equals the byte length. -/

/-- JSON values: null, booleans, integers, strings, arrays, objects (with
insertion-ordered fields, as Python dicts are). -/
inductive JVal where
  | jnull
  | jbool (b : Bool)
  | jint (n : Int)
  | jstr (s : List Char)
  | jarr (xs : List JVal)
  | jobj (fs : List (List Char × JVal))

/-- The opening curly bracket character. -/
def lbrace : Char := Char.ofNat 123

/-- The closing curly bracket character. -/
def rbrace : Char := Char.ofNat 125

/-- Decimal digits of a positive number, most significant first; the first
argument is structural fuel (any bound on the number works). -/
def natToCharsAux : Nat → Nat → List Char
  | 0, _ => []
  | _ + 1, 0 => []
  | fuel + 1, n + 1 =>
    natToCharsAux fuel ((n + 1) / 10) ++ [Nat.digitChar ((n + 1) % 10)]

/-- Python's decimal rendering of a natural number. -/
def natToChars (n : Nat) : List Char :=
  if n = 0 then ['0'] else natToCharsAux n n

/-- Numeric value of a decimal digit character. -/
def digitVal (c : Char) : Nat := c.toNat - 48

/-- Numeric value of a digit string, most significant first. -/
def charsVal (l : List Char) : Nat := l.foldl (fun a c => a * 10 + digitVal c) 0

/-- Read a maximal non-empty digit run as a natural number. -/
def parseNat (input : List Char) : Option (Nat × List Char) :=
  let ds := input.takeWhile Char.isDigit
  if ds.isEmpty then none
  else some (charsVal ds, input.dropWhile Char.isDigit)

/-- The input does not begin with a decimal digit (so a preceding number
literal ends exactly there). -/
def noDigit (l : List Char) : Prop := ∀ c, l.head? = some c → c.isDigit = false

mutual

/-- `json.dumps` with its default separators, on well-formed values:
exactly the text CPython produces for payloads whose strings are
printable ASCII without quotes or backslashes. -/
def dumpsV : JVal → List Char
  | .jnull => ['n', 'u', 'l', 'l']
  | .jbool true => ['t', 'r', 'u', 'e']
  | .jbool false => ['f', 'a', 'l', 's', 'e']
  | .jint n => if n < 0 then '-' :: natToChars (-n).toNat else natToChars n.toNat
  | .jstr str => '"' :: (str ++ ['"'])
  | .jarr [] => ['[', ']']
  | .jarr (x :: xs) => '[' :: (dumpsV x ++ (dumpsItems xs ++ [']']))
  | .jobj [] => [lbrace, rbrace]
  | .jobj (f :: fs) => lbrace :: (dumpsField f ++ (dumpsFields fs ++ [rbrace]))

/-- One object field, `"key": value`. -/
def dumpsField : List Char × JVal → List Char
  | (k, v) => '"' :: (k ++ ('"' :: ':' :: ' ' :: dumpsV v))

/-- The `', '`-separated tail items of a non-empty array. -/
def dumpsItems : List JVal → List Char
  | [] => []
  | x :: xs => ',' :: ' ' :: (dumpsV x ++ dumpsItems xs)

/-- The `', '`-separated tail fields of a non-empty object. -/
def dumpsFields : List (List Char × JVal) → List Char
  | [] => []
  | f :: fs => ',' :: ' ' :: (dumpsField f ++ dumpsFields fs)

end

/-- Characters that `json.dumps` passes through verbatim inside a string:
printable ASCII other than the quote and the backslash. -/
def goodChar (c : Char) : Bool :=
  (decide (32 ≤ c.toNat) && decide (c.toNat < 127)) &&
    (decide (c ≠ '"') && decide (c ≠ Char.ofNat 92))

/-- A string whose dumps rendering needs no escapes. -/
def goodStr (str : List Char) : Bool := str.all goodChar

mutual

/-- Well-formedness: every string and key in the value is escape-free. -/
def wfJ : JVal → Bool
  | .jnull => true
  | .jbool _ => true
  | .jint _ => true
  | .jstr str => goodStr str
  | .jarr xs => wfItems xs
  | .jobj fs => wfFields fs

def wfItems : List JVal → Bool
  | [] => true
  | x :: xs => wfJ x && wfItems xs

def wfFields : List (List Char × JVal) → Bool
  | [] => true
  | f :: fs => (goodStr f.1 && wfJ f.2) && wfFields fs

end

mutual

/-- Recursive-descent JSON value reader (the model of `json.loads` on the
grammar `dumpsV` emits); the fuel argument dominates the input length. -/
def parseV : Nat → List Char → Option (JVal × List Char)
  | 0, _ => none
  | fuel + 1, input =>
    match input with
    | [] => none
    | c :: rest =>
      if c = 'n' then
        if rest.take 3 = ['u', 'l', 'l'] then some (.jnull, rest.drop 3) else none
      else if c = 't' then
        if rest.take 3 = ['r', 'u', 'e'] then some (.jbool true, rest.drop 3) else none
      else if c = 'f' then
        if rest.take 4 = ['a', 'l', 's', 'e'] then some (.jbool false, rest.drop 4) else none
      else if c = '"' then
        let str := rest.takeWhile (fun x => decide (x ≠ '"'))
        let r := rest.dropWhile (fun x => decide (x ≠ '"'))
        if r.isEmpty then none else some (.jstr str, r.tail)
      else if c = '[' then
        if rest.head? = some ']' then some (.jarr [], rest.tail)
        else do
          let (v, r) ← parseV fuel rest
          let (vs, r2) ← parseItems fuel r
          some (.jarr (v :: vs), r2)
      else if c = lbrace then
        if rest.head? = some rbrace then some (.jobj [], rest.tail)
        else do
          let (f, r) ← parseField fuel rest
          let (fs, r3) ← parseFields fuel r
          some (.jobj (f :: fs), r3)
      else if c = '-' then do
        let (nv, r) ← parseNat rest
        some (.jint (-(nv : Int)), r)
      else if c.isDigit then do
        let (nv, r) ← parseNat (c :: rest)
        some (.jint (nv : Int), r)
      else none

/-- Read one `"key": value` field. -/
def parseField : Nat → List Char → Option ((List Char × JVal) × List Char)
  | 0, _ => none
  | fuel + 1, input =>
    match input with
    | [] => none
    | c :: rest =>
      if c = '"' then
        let k := rest.takeWhile (fun x => decide (x ≠ '"'))
        let r := rest.dropWhile (fun x => decide (x ≠ '"'))
        if r.isEmpty then none
        else if r.tail.take 2 = [':', ' '] then do
          let (v, r2) ← parseV fuel (r.tail.drop 2)
          some ((k, v), r2)
        else none
      else none

/-- Read the remaining `', '`-separated items of an array up to `]`. -/
def parseItems : Nat → List Char → Option (List JVal × List Char)
  | 0, _ => none
  | fuel + 1, input =>
    match input with
    | [] => none
    | c :: rest =>
      if c = ']' then some ([], rest)
      else if c = ',' then
        if rest.head? = some ' ' then do
          let (v, r) ← parseV fuel rest.tail
          let (vs, r2) ← parseItems fuel r
          some (v :: vs, r2)
        else none
      else none

/-- Read the remaining `', '`-separated fields of an object up to the
closing brace. -/
def parseFields : Nat → List Char → Option (List (List Char × JVal) × List Char)
  | 0, _ => none
  | fuel + 1, input =>
    match input with
    | [] => none
    | c :: rest =>
      if c = rbrace then some ([], rest)
      else if c = ',' then
        if rest.head? = some ' ' then do
          let (f, r) ← parseField fuel rest.tail
          let (fs, r2) ← parseFields fuel r
          some (f :: fs, r2)
        else none
      else none

end

/-- `struct.pack('i', n)`: four little-endian bytes of the 32-bit two's
complement representation (x86 native endianness). -/
def packI32 (n : Int) : List Nat :=
  let m := (n % (4294967296 : Int)).toNat
  [m % 256, m / 256 % 256, m / 65536 % 256, m / 16777216 % 256]

/-- `struct.unpack('i', bytes)[0]`: recover the signed 32-bit value. -/
def unpackI32 (bs : List Nat) : Option Int :=
  match bs with
  | [b0, b1, b2, b3] =>
    let m := b0 % 256 + 256 * (b1 % 256) + 65536 * (b2 % 256) + 16777216 * (b3 % 256)
    some (if m < 2147483648 then (m : Int) else (m : Int) - 4294967296)
  | _ => none

/-- The characters of the literal key `'name'`. -/
def nameKey : List Char := ['n', 'a', 'm', 'e']

/-- `ServerEvent.request` (lib/events.py:48-50): the length-prefixed UTF-8
bytes of `json.dumps({'name': self.name, **self.payload})`.  The payloads
server.py broadcasts never themselves contain a `name` key, so the merged
dict is the `name` field followed by the payload fields in order. -/
def request (name : List Char) (payload : List (List Char × JVal)) : List Nat :=
  let str := dumpsV (.jobj ((nameKey, .jstr name) :: payload))
  packI32 (str.length : Int) ++ str.map Char.toNat

/-- Decode one wire frame: read the 4-byte signed length prefix, take that
many payload bytes, decode them as characters (the payload is ASCII) and
parse the JSON text, requiring it to be consumed entirely. -/
def decodeFrame (bs : List Nat) : Option JVal :=
  match unpackI32 (bs.take 4) with
  | none => none
  | some n =>
    if n < 0 then none
    else
      let body := (bs.drop 4).take n.toNat
      if (bs.drop 4).length < n.toNat then none
      else
        match parseV body.length (body.map Char.ofNat) with
        | some (v, []) => some v
        | _ => none

/-! ### Concrete sessions used as test vehicles -/

/-- A fixed behaviour of the external map generator used in the concrete
sessions below: two planets, one per player, with 1 and 0 starting units.
The generator is an external collaborator, so any output is admissible. -/
def gen0 : List Nat → List Planet := fun _ =>
  [{ id := 1, owner := some 1, units_count := 1 },
   { id := 2, owner := some 2, units_count := 0 }]

/-- Session A, step 1: first client accepted (player 1). -/
def trA1 : ServerState := acceptClient initState

/-- Session A, step 2: second client accepted (player 2). -/
def trA2 : ServerState := acceptClient trA1

/-- Session A, step 3: player 1 submits ready. -/
def trA3 : ServerState := (handleEvent gen0 trA2 (.ready 1 true)).1

/-- Session A, step 4: player 2 submits ready; everyone is ready, so the
map is generated and readiness becomes true. -/
def trA4 : ServerState := (handleEvent gen0 trA3 (.ready 2 true)).1

/-- Session A, step 5: player 1 reports rendered. -/
def trA5 : ServerState := (handleEvent gen0 trA4 (.rendered 1)).1

/-- Session A, step 6: player 2 reports rendered; the game starts. -/
def trA6 : ServerState := (handleEvent gen0 trA5 (.rendered 2)).1

/-- Session A, step 7: player 1 lifts 100% of the single unit off their
planet, receiving unit id 0; their planet drops to 0 units. -/
def trA7 : ServerState := (handleEvent gen0 trA6 (.select 1 [1] 100)).1

/-- Session B: a single accepted client reports rendered straight away. -/
def trB2 : ServerState := (handleEvent gen0 trA1 (.rendered 1)).1

/-- A mid-game state used for the witnesses: one connected player holding
unit 7, one foreign planet with 5 units. -/
def wit1 : ServerState :=
  { players := [{ id := 1, ready := true, rendered := true, object_ids := [7] },
                { id := 2, ready := true, rendered := true, object_ids := [8] }],
    clients := [1, 2],
    planets := [{ id := 3, owner := some 2, units_count := 5 },
                { id := 4, owner := some 1, units_count := 6 }],
    readiness := true, game_started := true, next_player_id := 2,
    idGen := 9, mapGenCount := 1, outbox := [] }

/-- A mid-game state with a player owning a 10-unit planet, used for the
select witnesses and counterexamples. -/
def wit2 : ServerState :=
  { players := [{ id := 1, ready := true, rendered := true, object_ids := [] },
                { id := 2, ready := true, rendered := true, object_ids := [50] }],
    clients := [1, 2],
    planets := [{ id := 5, owner := some 1, units_count := 10 },
                { id := 6, owner := some 2, units_count := 4 }],
    readiness := true, game_started := true, next_player_id := 2,
    idGen := 100, mapGenCount := 1, outbox := [] }

/-- Predicate picking out map-init broadcasts in the outbound queue. -/
def isMapInit : SEv → Bool
  | .mapInit _ => true
  | _ => false

/-- Predicate picking out game-over broadcasts in the outbound queue. -/
def isGameOver : SEv → Bool
  | .gameOver _ => true
  | _ => false

/-- All planets in the cache have a non-negative unit count. -/
def PlanetsNonneg (ps : List Planet) : Prop := ∀ pl ∈ ps, 0 ≤ pl.units_count

instance (ps : List Planet) : Decidable (PlanetsNonneg ps) :=
  inferInstanceAs (Decidable (∀ pl ∈ ps, 0 ≤ pl.units_count))

/-- The payload sanity conditions under which the handler preserves planet
non-negativity: select percentages between 0 and 100 and non-negative hp
counts.  Nothing in the source enforces these; they come from clients. -/
def eventOK : CEvent → Bool
  | .select _ _ percentage => decide (0 ≤ percentage) && decide (percentage ≤ 100)
  | .add_hp _ _ hp => decide (0 ≤ hp)
  | .damage _ _ _ hpOpt => decide (0 ≤ hpOpt.getD 1)
  | _ => true

/-- `2^46`, the unit-count bound below which the source's double-precision
`round(units_count * percentage / 100.0)` (for percentages in [0, 100])
provably coincides with the exact rounding `pyRound100`: the product stays
at or below `100 * 2^46 < 2^53`, where the float pipeline is exact (see the
`pyRound100` doc comment). -/
def unitsFloatSafe : Int := 70368744177664

/-- All planets hold a unit count within `[0, unitsFloatSafe]` — the regime
in which select arithmetic on them is exactly the source's float
arithmetic. -/
def PlanetsInRange (ps : List Planet) : Prop :=
  ∀ pl ∈ ps, 0 ≤ pl.units_count ∧ pl.units_count ≤ unitsFloatSafe

instance (ps : List Planet) : Decidable (PlanetsInRange ps) :=
  inferInstanceAs (Decidable (∀ pl ∈ ps, 0 ≤ pl.units_count ∧ pl.units_count ≤ unitsFloatSafe))

/-- The unit-id generator invariant: the counter is non-negative and every
unit id currently held by any player was handed out from below the counter.
It holds in the freshly constructed server and, as proved below, in every
reachable state. -/
def GenAhead (s : ServerState) : Prop :=
  0 ≤ s.idGen ∧ ∀ r ∈ s.players, ∀ i ∈ r.object_ids, 0 ≤ i ∧ i < s.idGen

instance (s : ServerState) : Decidable (GenAhead s) :=
  inferInstanceAs
    (Decidable (0 ≤ s.idGen ∧ ∀ r ∈ s.players, ∀ i ∈ r.object_ids, 0 ≤ i ∧ i < s.idGen))

/-- The cumulative unit-id mint log of an execution: alongside each server
transition, record the ids the generator handed out during it — the
interval of counter values the transition consumed (`selectLoop` is the
generator's only consumer and it advances the counter by exactly the number
of ids it mints, so a step from counter `g` to counter `g'` hands out
precisely `g, g+1, ..., g'-1`). -/
inductive MintLog : ServerState → List Int → Prop where
  | init : MintLog initState []
  | step {s s' : ServerState} {ulog : List Int} {δ : List Nat} :
      MintLog s ulog → TStep s δ s' →
      MintLog s' (ulog ++ mintIds s.idGen (s'.idGen - s.idGen))

/-- A mid-game state for the capture witness: player 1 holds units 7 and 9,
planet 3 (5 units) and planet 4 belong to player 2. -/
def wit3 : ServerState :=
  { players := [{ id := 1, ready := true, rendered := true, object_ids := [7, 9] },
                { id := 2, ready := true, rendered := true, object_ids := [8] }],
    clients := [1, 2],
    planets := [{ id := 3, owner := some 2, units_count := 5 },
                { id := 4, owner := some 2, units_count := 6 }],
    readiness := true, game_started := true, next_player_id := 2,
    idGen := 10, mapGenCount := 1, outbox := [] }

/-- A mid-game state for the game-over witness: after player 1 captures
planet 3 with unit 7, only player 1 still qualifies. -/
def wit4 : ServerState :=
  { players := [{ id := 1, ready := true, rendered := true, object_ids := [7, 9] },
                { id := 2, ready := true, rendered := true, object_ids := [] }],
    clients := [1, 2],
    planets := [{ id := 3, owner := some 2, units_count := 5 }],
    readiness := true, game_started := true, next_player_id := 2,
    idGen := 10, mapGenCount := 1, outbox := [] }

/-- A mid-game state with player 1 owning two planets (10 and 4 units),
used for the multi-planet select witness. -/
def wit5 : ServerState :=
  { players := [{ id := 1, ready := true, rendered := true, object_ids := [] },
                { id := 2, ready := true, rendered := true, object_ids := [50] }],
    clients := [1, 2],
    planets := [{ id := 5, owner := some 1, units_count := 10 },
                { id := 6, owner := some 2, units_count := 4 },
                { id := 7, owner := some 1, units_count := 4 }],
    readiness := true, game_started := true, next_player_id := 2,
    idGen := 100, mapGenCount := 1, outbox := [] }

/-! ### Supporting lemmas -/

theorem mem_updateFirst {α : Type} {p : α → Bool} {f : α → α} {l : List α} {x : α}
    (hx : x ∈ updateFirst p f l) :
    x ∈ l ∨ ∃ a, l.find? p = some a ∧ x = f a := by
  induction l with
  | nil => simp [updateFirst] at hx
  | cons y ys ih =>
    by_cases hy : p y
    · rw [updateFirst, if_pos hy] at hx
      rcases List.mem_cons.mp hx with h | h
      · exact Or.inr ⟨y, List.find?_cons_of_pos _ hy, h⟩
      · exact Or.inl (List.mem_cons_of_mem _ h)
    · rw [updateFirst, if_neg hy] at hx
      rcases List.mem_cons.mp hx with h | h
      · exact Or.inl (h ▸ List.mem_cons_self _ _)
      · rcases ih h with h' | ⟨a, ha, hxa⟩
        · exact Or.inl (List.mem_cons_of_mem _ h')
        · exact Or.inr ⟨a, by rwa [List.find?_cons_of_neg _ (by simpa using hy)], hxa⟩

theorem find?_updateFirst {α : Type} {p : α → Bool} {f : α → α} {l : List α} {a : α}
    (hfind : l.find? p = some a) (hpf : p (f a) = true) :
    (updateFirst p f l).find? p = some (f a) := by
  induction l with
  | nil => simp at hfind
  | cons y ys ih =>
    by_cases hy : p y
    · rw [List.find?_cons_of_pos _ hy] at hfind
      injection hfind with hfind
      subst hfind
      rw [updateFirst, if_pos hy, List.find?_cons_of_pos _ hpf]
    · rw [List.find?_cons_of_neg _ (by simpa using hy)] at hfind
      rw [updateFirst, if_neg hy, List.find?_cons_of_neg _ (by simpa using hy)]
      exact ih hfind

theorem updateFirst_unique {α : Type} {p : α → Bool} {f : α → α} {l : List α} {a x : α}
    (hcount : l.countP p ≤ 1) (hfind : l.find? p = some a)
    (hx : x ∈ updateFirst p f l) (hpx : p x = true) : x = f a := by
  induction l with
  | nil => simp at hfind
  | cons y ys ih =>
    by_cases hy : p y
    · rw [List.find?_cons_of_pos _ hy] at hfind
      injection hfind with hfind
      subst hfind
      rw [updateFirst, if_pos hy] at hx
      rcases List.mem_cons.mp hx with h | h
      · exact h
      · exfalso
        rw [List.countP_cons_of_pos _ _ hy] at hcount
        have hz : ys.countP p = 0 := by omega
        exact absurd hpx (by simpa using (List.countP_eq_zero.mp hz) x h)
    · rw [List.find?_cons_of_neg _ (by simpa using hy)] at hfind
      rw [updateFirst, if_neg hy] at hx
      rcases List.mem_cons.mp hx with h | h
      · exact absurd (h ▸ hpx) (by simpa using hy)
      · rw [List.countP_cons_of_neg _ _ (by simpa using hy)] at hcount
        exact ih hcount hfind h

theorem pyRound100_le {a n : Int} (h : a ≤ 100 * n) : pyRound100 a ≤ n := by
  have hd := Int.ediv_add_emod a 100
  have h0 : 0 ≤ a % 100 := Int.emod_nonneg a (by norm_num)
  have h1 : a % 100 < 100 := Int.emod_lt_of_pos a (by norm_num)
  simp only [pyRound100]
  split_ifs <;> omega

theorem pyRound100_nonneg {a : Int} (h : 0 ≤ a) : 0 ≤ pyRound100 a := by
  have hd := Int.ediv_add_emod a 100
  have h0 : 0 ≤ a % 100 := Int.emod_nonneg a (by norm_num)
  have h1 : a % 100 < 100 := Int.emod_lt_of_pos a (by norm_num)
  simp only [pyRound100]
  split_ifs <;> omega

theorem scanActive_break {planets : List Planet} :
    ∀ (ps : List Player) (acc : List Nat), acc.length ≤ 1 →
      2 ≤ acc.length + (ps.filter (qualifies planets)).length →
      (scanActive planets ps acc).2 = true := by
  intro ps
  induction ps with
  | nil => intro acc h1 h2; simp at h2; omega
  | cons q rest ih =>
    intro acc h1 h2
    cases hq : qualifies planets q with
    | true =>
      rw [List.filter_cons_of_pos hq] at h2
      simp only [List.length_cons] at h2
      rw [scanActive]
      simp only [hq, if_true]
      by_cases hbr : 2 ≤ (acc ++ [q.id]).length
      · rw [if_pos hbr]
      · rw [if_neg hbr]
        have hlen : (acc ++ [q.id]).length = acc.length + 1 := by simp
        exact ih _ (by omega) (by omega)
    | false =>
      rw [List.filter_cons_of_neg (by simp [hq])] at h2
      rw [scanActive]
      simp only [hq, Bool.false_eq_true, if_false]
      rw [if_neg (by omega)]
      exact ih _ h1 h2

theorem scanActive_complete {planets : List Planet} :
    ∀ (ps : List Player) (acc : List Nat),
      acc.length + (ps.filter (qualifies planets)).length < 2 →
      scanActive planets ps acc =
        (acc ++ (ps.filter (qualifies planets)).map (fun q => q.id), false) := by
  intro ps
  induction ps with
  | nil => intro acc _; simp [scanActive]
  | cons q rest ih =>
    intro acc h2
    cases hq : qualifies planets q with
    | true =>
      rw [List.filter_cons_of_pos hq] at h2 ⊢
      rw [scanActive]
      simp only [hq, if_true]
      rw [if_neg (by simp only [List.length_append, List.length_cons,
        List.length_nil, List.length_map] at h2 ⊢; omega)]
      rw [ih _ (by simp only [List.length_append, List.length_cons,
        List.length_nil, List.length_map] at h2 ⊢; omega)]
      simp
    | false =>
      rw [List.filter_cons_of_neg (by simp [hq])] at h2 ⊢
      rw [scanActive]
      simp only [hq, Bool.false_eq_true, if_false]
      rw [if_neg (by omega)]
      exact ih _ (by omega)

theorem reachable_step {s s' : ServerState} (h : Reachable s) {δ : List Nat}
    (hs : TStep s δ s') : Reachable s' := by
  rcases h with ⟨log, hl⟩
  exact ⟨log ++ δ, hl.step hs⟩

theorem reachable_trA4 : Reachable trA4 := by
  have h0 : Reachable initState := ⟨[], ReachLog.init⟩
  have h1 : Reachable trA1 := reachable_step h0 (TStep.accept rfl rfl (by decide))
  have h2 : Reachable trA2 := reachable_step h1 (TStep.accept rfl rfl (by decide))
  have h3 : Reachable trA3 := reachable_step h2 (TStep.handle gen0 (.ready 1 true) (by decide))
  exact reachable_step h3 (TStep.handle gen0 (.ready 2 true) (by decide))

theorem reachable_trA7 : Reachable trA7 := by
  have h5 : Reachable trA5 := reachable_step reachable_trA4
    (TStep.handle gen0 (.rendered 1) (by decide))
  have h6 : Reachable trA6 := reachable_step h5
    (TStep.handle gen0 (.rendered 2) (by decide))
  exact reachable_step h6 (TStep.handle gen0 (.select 1 [1] 100) (by decide))

/-- In every branch of the damage handler the resulting planet cache is the
one produced by the damage mutation itself: the game-over epilogue never
touches the planets. -/
theorem handleEvent_damage_planets (gen : List Nat → List Planet) (s : ServerState)
    (pid : Nat) (planetId unitId : Int) (hpOpt : Option Int) (q : Player) (pl : Planet)
    (hg : s.game_started = true) (hq : findPlayer s.players pid = some q)
    (hpl : findPlanet s.planets planetId = some pl) :
    (handleEvent gen s (.damage pid planetId unitId hpOpt)).1.planets =
      (damageMid s pid planetId unitId (hpOpt.getD 1) q pl).planets := by
  simp only [handleEvent, hg, if_true, hq, hpl]
  rcases hscan : scanActive (damageMid s pid planetId unitId (hpOpt.getD 1) q pl).planets
      (damageMid s pid planetId unitId (hpOpt.getD 1) q pl).players [] with ⟨acc, b⟩
  cases b
  · cases acc <;> simp [hscan]
  · simp [hscan]

/-- In every branch of the damage handler the resulting player map is either
the one produced by the damage mutation or, when game over fired, empty. -/
theorem handleEvent_damage_players (gen : List Nat → List Planet) (s : ServerState)
    (pid : Nat) (planetId unitId : Int) (hpOpt : Option Int) (q : Player) (pl : Planet)
    (hg : s.game_started = true) (hq : findPlayer s.players pid = some q)
    (hpl : findPlanet s.planets planetId = some pl) :
    (handleEvent gen s (.damage pid planetId unitId hpOpt)).1.players =
      (damageMid s pid planetId unitId (hpOpt.getD 1) q pl).players ∨
    (handleEvent gen s (.damage pid planetId unitId hpOpt)).1.players = [] := by
  simp only [handleEvent, hg, if_true, hq, hpl]
  rcases hscan : scanActive (damageMid s pid planetId unitId (hpOpt.getD 1) q pl).planets
      (damageMid s pid planetId unitId (hpOpt.getD 1) q pl).players [] with ⟨acc, b⟩
  cases b
  · cases acc <;> simp [hscan]
  · simp [hscan]

/-- The damage mutation keeps the planet cache non-negative when the hp
amount is non-negative. -/
theorem damageMid_nonneg (s : ServerState) (pid : Nat) (planetId unitId hp : Int)
    (q : Player) (pl : Planet) (hpl : findPlanet s.planets planetId = some pl)
    (hpre : PlanetsNonneg s.planets) (hhp : 0 ≤ hp) :
    PlanetsNonneg (damageMid s pid planetId unitId hp q pl).planets := by
  simp only [damageMid]
  by_cases hmem : unitId ∈ q.object_ids
  · rw [if_pos hmem]
    intro x hx
    rcases mem_updateFirst hx with hmx | ⟨a, ha, hxa⟩
    · exact hpre x hmx
    · have hplmem := List.mem_of_find?_eq_some hpl
      have h0 : 0 ≤ pl.units_count := hpre pl hplmem
      rw [findPlanet] at hpl
      rw [hpl] at ha
      injection ha with ha
      subst ha
      subst hxa
      split_ifs <;> simp <;> omega
  · rw [if_neg hmem]
    exact hpre

/-- The select loop keeps the planet cache non-negative when the requested
percentage is at most 100. -/
theorem selectLoop_nonneg (pid : Nat) (percentage : Int) (hpct : percentage ≤ 100) :
    ∀ (froms : List Int) (s : ServerState) (punits : List (Int × List Int)),
      PlanetsNonneg s.planets →
      PlanetsNonneg (selectLoop pid percentage froms s punits).1.planets := by
  intro froms
  induction froms with
  | nil => intro s punits h; simpa [selectLoop] using h
  | cons planetId rest ih =>
    intro s punits h
    rw [selectLoop]
    cases hfp : findPlanet s.planets planetId with
    | none => simpa using h
    | some pl =>
      simp only
      by_cases how : pl.owner = some pid
      · rw [if_pos how]
        refine ih _ _ ?_
        intro x hx
        rcases mem_updateFirst hx with hmx | ⟨a, ha, hxa⟩
        · exact h x hmx
        · have hplmem := List.mem_of_find?_eq_some hfp
          have h0 : 0 ≤ pl.units_count := h pl hplmem
          rw [findPlanet] at hfp
          rw [hfp] at ha
          injection ha with ha
          subst ha
          subst hxa
          have hk : pyRound100 (pl.units_count * percentage) ≤ pl.units_count :=
            pyRound100_le (by nlinarith)
          simp
          omega
      · rw [if_neg how]
        exact ih _ _ h

/-- The damage mutation never touches the player-id counter. -/
theorem damageMid_next (s : ServerState) (pid : Nat) (planetId unitId hp : Int)
    (q : Player) (pl : Planet) :
    (damageMid s pid planetId unitId hp q pl).next_player_id = s.next_player_id := by
  simp only [damageMid]
  split <;> rfl

/-- The select loop never touches the player-id counter. -/
theorem selectLoop_next (pid : Nat) (percentage : Int) :
    ∀ (froms : List Int) (s : ServerState) (punits : List (Int × List Int)),
      (selectLoop pid percentage froms s punits).1.next_player_id = s.next_player_id := by
  intro froms
  induction froms with
  | nil => intro s punits; rfl
  | cons planetId rest ih =>
    intro s punits
    rw [selectLoop]
    cases hfp : findPlanet s.planets planetId with
    | none => rfl
    | some pl =>
      simp only
      by_cases how : pl.owner = some pid
      · rw [if_pos how]
        exact ih _ _
      · rw [if_neg how]
        exact ih _ _

/-- No handler branch ever changes `next_player_id`: in particular the
game-over reset at server.py:226-231 clears players and clients but leaves
the counter alone. -/
theorem handleEvent_next (gen : List Nat → List Planet) (s : ServerState) (e : CEvent) :
    (handleEvent gen s e).1.next_player_id = s.next_player_id := by
  cases e with
  | ready pid val =>
    simp only [handleEvent]
    cases findPlayer s.players pid
    · rfl
    · simp only
      split <;> rfl
  | rendered pid =>
    simp only [handleEvent]
    cases findPlayer s.players pid
    · rfl
    · simp only
      split <;> rfl
  | move pid unitId =>
    simp only [handleEvent]
    split
    · cases findPlayer s.players pid
      · rfl
      · simp only
        split <;> rfl
    · rfl
  | select pid froms percentage =>
    simp only [handleEvent]
    split
    · cases findPlayer s.players pid with
      | none => rfl
      | some q =>
        simp only
        have hnext := selectLoop_next pid percentage froms s []
        rcases hloop : selectLoop pid percentage froms s [] with ⟨s1, punits, err⟩
        rw [hloop] at hnext
        cases err
        · simpa using hnext
        · simpa using hnext
    · rfl
  | add_hp pid planetId hp =>
    simp only [handleEvent]
    split
    · cases findPlayer s.players pid
      · rfl
      · simp only
        cases findPlanet s.planets planetId
        · rfl
        · simp only
          split <;> rfl
    · rfl
  | damage pid planetId unitId hpOpt =>
    simp only [handleEvent]
    split
    · cases hq : findPlayer s.players pid with
      | none => rfl
      | some q =>
        simp only
        cases hpl : findPlanet s.planets planetId with
        | none => rfl
        | some pl =>
          simp only
          have hmid := damageMid_next s pid planetId unitId (hpOpt.getD 1) q pl
          rcases hscan : scanActive (damageMid s pid planetId unitId (hpOpt.getD 1) q pl).planets
              (damageMid s pid planetId unitId (hpOpt.getD 1) q pl).players [] with ⟨acc, brk⟩
          cases brk
          · cases acc
            · simpa using hmid
            · simpa using hmid
          · simpa using hmid
    · rfl

/-! ### Generator and select-loop lemmas -/

theorem countP_updateFirst {α : Type} (p q : α → Bool) (f : α → α) (l : List α)
    (hpq : ∀ x, q (f x) = q x) :
    (updateFirst p f l).countP q = l.countP q := by
  induction l with
  | nil => rfl
  | cons y ys ih =>
    by_cases hy : p y
    · rw [updateFirst, if_pos hy, List.countP_cons, List.countP_cons, hpq]
    · rw [updateFirst, if_neg hy, List.countP_cons, List.countP_cons, ih]

theorem find?_updateFirst_other {α : Type} (p q : α → Bool) (f : α → α) (l : List α)
    (hpq : ∀ x, p x = true → q x = false) (hf : ∀ x, q (f x) = q x) :
    (updateFirst p f l).find? q = l.find? q := by
  induction l with
  | nil => rfl
  | cons y ys ih =>
    by_cases hy : p y
    · have hqy : q y = false := hpq y hy
      have hqfy : q (f y) = false := by rw [hf]; exact hqy
      rw [updateFirst, if_pos hy, List.find?_cons_of_neg _ (by simp [hqfy]),
        List.find?_cons_of_neg _ (by simp [hqy])]
    · rw [updateFirst, if_neg hy]
      cases hqy : q y with
      | true => rw [List.find?_cons_of_pos _ hqy, List.find?_cons_of_pos _ hqy]
      | false =>
        rw [List.find?_cons_of_neg _ (by simp [hqy]),
          List.find?_cons_of_neg _ (by simp [hqy]), ih]

theorem find?_isSome_updateFirst {α : Type} (p q : α → Bool) (f : α → α) (l : List α)
    (hf : ∀ x, q (f x) = q x) :
    ((updateFirst p f l).find? q).isSome = (l.find? q).isSome := by
  induction l with
  | nil => rfl
  | cons y ys ih =>
    by_cases hy : p y
    · rw [updateFirst, if_pos hy]
      cases hqy : q y with
      | true =>
        rw [List.find?_cons_of_pos _ (by rw [hf]; exact hqy), List.find?_cons_of_pos _ hqy]
        rfl
      | false =>
        rw [List.find?_cons_of_neg _ (by simp [hf, hqy]),
          List.find?_cons_of_neg _ (by simp [hqy])]
    · rw [updateFirst, if_neg hy]
      cases hqy : q y with
      | true => rw [List.find?_cons_of_pos _ hqy, List.find?_cons_of_pos _ hqy]
      | false =>
        rw [List.find?_cons_of_neg _ (by simp [hqy]),
          List.find?_cons_of_neg _ (by simp [hqy]), ih]

/-- Looking up a planet other than the updated one is unaffected (the
update keeps the planet's id). -/
theorem findPlanet_updPlanet_ne (ps : List Planet) (a b : Int) (f : Planet → Planet)
    (hf : ∀ p, (f p).id = p.id) (hne : b ≠ a) :
    findPlanet (updPlanet ps a f) b = findPlanet ps b := by
  rw [findPlanet, findPlanet, updPlanet]
  apply find?_updateFirst_other
  · intro x hx
    have hxa : x.id = a := of_decide_eq_true hx
    rw [hxa]
    exact decide_eq_false (fun h => hne h.symm)
  · intro x
    simp [hf]

/-- Planet presence is preserved by an id-preserving in-place update. -/
theorem findPlanet_updPlanet_isSome (ps : List Planet) (a b : Int) (f : Planet → Planet)
    (hf : ∀ p, (f p).id = p.id) :
    (findPlanet (updPlanet ps a f) b).isSome = (findPlanet ps b).isSome := by
  rw [findPlanet, findPlanet, updPlanet]
  apply find?_isSome_updateFirst
  intro x
  simp [hf]

/-- An id-preserving in-place player update keeps every id-count. -/
theorem countP_updPlayer (ps : List Player) (pid pid2 : Nat) (f : Player → Player)
    (hf : ∀ r, (f r).id = r.id) :
    (updPlayer ps pid f).countP (fun r => decide (r.id = pid2)) =
      ps.countP (fun r => decide (r.id = pid2)) := by
  rw [updPlayer]
  apply countP_updateFirst
  intro x
  simp [hf]

theorem mintIds_length (g k : Int) : (mintIds g k).length = k.toNat := by
  rw [mintIds, List.length_map, List.length_range]

theorem mem_mintIds {g k i : Int} :
    i ∈ mintIds g k ↔ ∃ j : Nat, j < k.toNat ∧ i = g + j := by
  rw [mintIds]
  constructor
  · intro hi
    rcases List.mem_map.mp hi with ⟨j, hj, rfl⟩
    exact ⟨j, List.mem_range.mp hj, rfl⟩
  · rintro ⟨j, hj, rfl⟩
    exact List.mem_map.mpr ⟨j, List.mem_range.mpr hj, rfl⟩

/-- Two consecutive mint batches concatenate into one contiguous batch. -/
theorem mintIds_append (g : Int) (a b : Nat) :
    mintIds g (a : Int) ++ mintIds (g + (a : Int)) (b : Int) =
      mintIds g ((a : Int) + (b : Int)) := by
  have h1 : ((a : Int)).toNat = a := by omega
  have h2 : ((b : Int)).toNat = b := by omega
  have h3 : ((a : Int) + (b : Int)).toNat = a + b := by omega
  rw [mintIds, mintIds, mintIds, h1, h2, h3, List.range_add, List.map_append, List.map_map]
  congr 1
  apply List.map_congr_left
  intro j hj
  simp only [Function.comp_apply]
  push_cast
  ring

/-- A mint batch never repeats an id. -/
theorem mintIds_nodup (g k : Int) : (mintIds g k).Nodup := by
  rw [mintIds]
  refine List.Nodup.map ?_ (List.nodup_range _)
  intro x y hxy
  simp only at hxy
  omega

/-- Assigning a key not yet present appends the pair. -/
theorem dictSet_append {d : List (Int × List Int)} {k : Int} (v : List Int)
    (hk : ∀ kv ∈ d, kv.1 ≠ k) :
    dictSet d k v = d ++ [(k, v)] := by
  have h : ¬ (d.any (fun kv => decide (kv.1 = k)) = true) := by
    intro hc
    rcases List.any_eq_true.mp hc with ⟨kv, hkv, hdec⟩
    exact hk kv hkv (of_decide_eq_true hdec)
  rw [dictSet, if_neg h]

/-- When a predicate holds of at most one list element, any member
satisfying it is the one `find?` returns. -/
theorem find?_unique {α : Type} {p : α → Bool} {l : List α} {a x : α}
    (hcount : l.countP p ≤ 1) (hfind : l.find? p = some a)
    (hx : x ∈ l) (hpx : p x = true) : x = a := by
  induction l with
  | nil => simp at hfind
  | cons y ys ih =>
    by_cases hy : p y
    · rw [List.find?_cons_of_pos _ hy] at hfind
      injection hfind with hfind
      subst hfind
      rcases List.mem_cons.mp hx with h | h
      · exact h
      · exfalso
        rw [List.countP_cons_of_pos _ _ hy] at hcount
        have hz : ys.countP p = 0 := by omega
        exact absurd hpx (by simpa using (List.countP_eq_zero.mp hz) x h)
    · rw [List.find?_cons_of_neg _ (by simpa using hy)] at hfind
      rcases List.mem_cons.mp hx with h | h
      · exact absurd (h ▸ hpx) (by simpa using hy)
      · rw [List.countP_cons_of_neg _ _ (by simpa using hy)] at hcount
        exact ih hcount hfind h

/-- `mintIds_append` in the mixed form the loop invariant needs: the batch
of a non-negative integer count, then the batch minted from the advanced
counter. -/
theorem mintIds_append_int (g a : Int) (b : Nat) :
    mintIds g a ++ mintIds (g + ((a.toNat : Nat) : Int)) (b : Int) =
      mintIds g (((a.toNat + b : Nat)) : Int) := by
  have h2 : ((b : Int)).toNat = b := by omega
  have h3 : (((a.toNat + b : Nat) : Int)).toNat = a.toNat + b := by omega
  rw [mintIds, mintIds, mintIds, h2, h3, List.range_add, List.map_append, List.map_map]
  congr 1
  apply List.map_congr_left
  intro j hj
  simp only [Function.comp_apply]
  push_cast
  ring

/-- Unfolding one owned-planet iteration of the select loop: the body
builds exactly `selectStep` and appends the minted batch under the planet's
key (fresh among the accumulated keys). -/
theorem selectLoop_cons_owned (pid : Nat) (percentage planetId : Int) (rest : List Int)
    (s : ServerState) (punits : List (Int × List Int)) (pl : Planet)
    (hplE : findPlanet s.planets planetId = some pl) (how : pl.owner = some pid)
    (hkeys : ∀ kv ∈ punits, kv.1 ≠ planetId) :
    selectLoop pid percentage (planetId :: rest) s punits =
      selectLoop pid percentage rest
        (selectStep s pid planetId (pyRound100 (pl.units_count * percentage)))
        (punits ++ [(planetId, mintIds s.idGen (pyRound100 (pl.units_count * percentage)))]) := by
  rw [selectLoop, hplE]
  simp only
  rw [if_pos how, dictSet_append _ hkeys]
  rfl

/-- Unfolding one iteration of the select loop on a present planet the
sender does not own: the body changes nothing. -/
theorem selectLoop_cons_skip (pid : Nat) (percentage planetId : Int) (rest : List Int)
    (s : ServerState) (punits : List (Int × List Int)) (pl : Planet)
    (hplE : findPlanet s.planets planetId = some pl) (how : ¬ pl.owner = some pid) :
    selectLoop pid percentage (planetId :: rest) s punits =
      selectLoop pid percentage rest s punits := by
  rw [selectLoop, hplE]
  simp only
  rw [if_neg how]

/-- The select loop only ever advances the generator counter. -/
theorem selectLoop_idGen_le (pid : Nat) (percentage : Int) :
    ∀ (froms : List Int) (s : ServerState) (punits : List (Int × List Int)),
      s.idGen ≤ (selectLoop pid percentage froms s punits).1.idGen := by
  intro froms
  induction froms with
  | nil => intro s punits; exact le_refl _
  | cons planetId rest ih =>
    intro s punits
    rw [selectLoop]
    cases hfp : findPlanet s.planets planetId with
    | none => exact le_refl _
    | some pl =>
      simp only
      by_cases how : pl.owner = some pid
      · rw [if_pos how]
        refine le_trans ?_ (ih _ _)
        show s.idGen ≤ s.idGen + ((pyRound100 (pl.units_count * percentage)).toNat : Int)
        omega
      · rw [if_neg how]
        exact ih _ _

/-- The damage mutation never touches the generator counter. -/
theorem damageMid_idGen (s : ServerState) (pid : Nat) (planetId unitId hp : Int)
    (q : Player) (pl : Planet) :
    (damageMid s pid planetId unitId hp q pl).idGen = s.idGen := by
  simp only [damageMid]
  split <;> rfl

/-- No handler branch ever rewinds the generator counter. -/
theorem handleEvent_idGen_le (gen : List Nat → List Planet) (s : ServerState) (e : CEvent) :
    s.idGen ≤ (handleEvent gen s e).1.idGen := by
  cases e with
  | ready pid val =>
    simp only [handleEvent]
    cases findPlayer s.players pid
    · exact le_refl _
    · simp only
      split <;> exact le_refl _
  | rendered pid =>
    simp only [handleEvent]
    cases findPlayer s.players pid
    · exact le_refl _
    · simp only
      split <;> exact le_refl _
  | move pid unitId =>
    simp only [handleEvent]
    split
    · cases findPlayer s.players pid
      · exact le_refl _
      · simp only
        split <;> exact le_refl _
    · exact le_refl _
  | select pid froms percentage =>
    simp only [handleEvent]
    split
    · cases findPlayer s.players pid with
      | none => exact le_refl _
      | some q =>
        simp only
        have hle := selectLoop_idGen_le pid percentage froms s []
        rcases hloop : selectLoop pid percentage froms s [] with ⟨s1, punits, err⟩
        rw [hloop] at hle
        cases err
        · simpa using hle
        · simpa using hle
    · exact le_refl _
  | add_hp pid planetId hp =>
    simp only [handleEvent]
    split
    · cases findPlayer s.players pid
      · exact le_refl _
      · simp only
        cases findPlanet s.planets planetId
        · exact le_refl _
        · simp only
          split <;> exact le_refl _
    · exact le_refl _
  | damage pid planetId unitId hpOpt =>
    simp only [handleEvent]
    split
    · cases hq : findPlayer s.players pid with
      | none => exact le_refl _
      | some q =>
        simp only
        cases hpl : findPlanet s.planets planetId with
        | none => exact le_refl _
        | some pl =>
          simp only
          have hmid := damageMid_idGen s pid planetId unitId (hpOpt.getD 1) q pl
          rcases hscan : scanActive (damageMid s pid planetId unitId (hpOpt.getD 1) q pl).planets
              (damageMid s pid planetId unitId (hpOpt.getD 1) q pl).players [] with ⟨acc, brk⟩
          cases brk
          · cases acc
            · simp only
              omega
            · simp only
              omega
          · simp only
            omega
    · exact le_refl _

/-- Along any single transition the generator counter can only grow. -/
theorem tstep_idGen_le {s s' : ServerState} {δ : List Nat} (h : TStep s δ s') :
    s.idGen ≤ s'.idGen := by
  cases h with
  | accept h1 h2 h3 => exact le_refl _
  | handle gen e hrun =>
    have hle := handleEvent_idGen_le gen s e
    rw [hrun] at hle
    exact hle
  | disconnect c hc => exact le_refl _

/-- The select loop preserves the generator invariant unconditionally: old
ids stay below the (only growing) counter and freshly minted ids lie between
the old and the new counter value. -/
theorem selectLoop_genAhead (pid : Nat) (percentage : Int) :
    ∀ (froms : List Int) (s : ServerState) (punits : List (Int × List Int)),
      GenAhead s → GenAhead (selectLoop pid percentage froms s punits).1 := by
  intro froms
  induction froms with
  | nil => intro s punits h; exact h
  | cons planetId rest ih =>
    intro s punits h
    rw [selectLoop]
    cases hfp : findPlanet s.planets planetId with
    | none => exact h
    | some pl =>
      simp only
      by_cases how : pl.owner = some pid
      · rw [if_pos how]
        refine ih _ _ ⟨?_, ?_⟩
        · show 0 ≤ s.idGen + ((pyRound100 (pl.units_count * percentage)).toNat : Int)
          have := h.1
          omega
        · intro r hr i hir
          show 0 ≤ i ∧ i < s.idGen + ((pyRound100 (pl.units_count * percentage)).toNat : Int)
          rcases mem_updateFirst hr with hmr | ⟨a, ha, rfl⟩
          · have := h.2 r hmr i hir
            omega
          · have hamem := List.mem_of_find?_eq_some ha
            simp only at hir
            rcases List.mem_append.mp hir with hold | hnew
            · have := h.2 a hamem i hold
              omega
            · rcases mem_mintIds.mp hnew with ⟨j, hj, rfl⟩
              have := h.1
              omega
      · rw [if_neg how]
        exact ih _ _ h

/-- The damage mutation preserves the generator invariant (it only ever
removes unit ids). -/
theorem damageMid_genAhead (s : ServerState) (pid : Nat) (planetId unitId hp : Int)
    (q : Player) (pl : Planet) (h : GenAhead s) :
    GenAhead (damageMid s pid planetId unitId hp q pl) := by
  simp only [damageMid]
  split
  · refine ⟨h.1, ?_⟩
    intro r hr i hir
    show 0 ≤ i ∧ i < s.idGen
    rcases mem_updateFirst hr with hmr | ⟨a, ha, rfl⟩
    · exact h.2 r hmr i hir
    · have hamem := List.mem_of_find?_eq_some ha
      simp only at hir
      exact h.2 a hamem i (List.mem_of_mem_erase hir)
  · exact h

/-- Every handler branch preserves the generator invariant. -/
theorem handleEvent_genAhead (gen : List Nat → List Planet) (s : ServerState) (e : CEvent)
    (h : GenAhead s) : GenAhead (handleEvent gen s e).1 := by
  have hupd : ∀ (pid : Nat) (f : Player → Player),
      (∀ r, (f r).object_ids = r.object_ids) →
      ∀ r ∈ updPlayer s.players pid f, ∀ i ∈ r.object_ids, 0 ≤ i ∧ i < s.idGen := by
    intro pid f hf r hr i hir
    rcases mem_updateFirst hr with hmr | ⟨a, ha, rfl⟩
    · exact h.2 r hmr i hir
    · rw [hf] at hir
      exact h.2 a (List.mem_of_find?_eq_some ha) i hir
  cases e with
  | ready pid val =>
    simp only [handleEvent]
    cases findPlayer s.players pid
    · exact h
    · simp only
      split
      · exact ⟨h.1, hupd pid _ (fun r => rfl)⟩
      · exact ⟨h.1, hupd pid _ (fun r => rfl)⟩
  | rendered pid =>
    simp only [handleEvent]
    cases findPlayer s.players pid
    · exact h
    · simp only
      split
      · exact ⟨h.1, hupd pid _ (fun r => rfl)⟩
      · exact ⟨h.1, hupd pid _ (fun r => rfl)⟩
  | move pid unitId =>
    simp only [handleEvent]
    split
    · cases findPlayer s.players pid
      · exact h
      · simp only
        split
        · exact h
        · exact h
    · exact h
  | select pid froms percentage =>
    simp only [handleEvent]
    split
    · cases findPlayer s.players pid with
      | none => exact h
      | some q =>
        simp only
        have hloopA := selectLoop_genAhead pid percentage froms s [] h
        rcases hloop : selectLoop pid percentage froms s [] with ⟨s1, punits, err⟩
        rw [hloop] at hloopA
        cases err
        · exact hloopA
        · exact hloopA
    · exact h
  | add_hp pid planetId hp =>
    simp only [handleEvent]
    split
    · cases findPlayer s.players pid
      · exact h
      · simp only
        cases findPlanet s.planets planetId
        · exact h
        · simp only
          split
          · exact h
          · exact h
    · exact h
  | damage pid planetId unitId hpOpt =>
    simp only [handleEvent]
    split
    · cases hq : findPlayer s.players pid with
      | none => exact h
      | some q =>
        simp only
        cases hpl : findPlanet s.planets planetId with
        | none => exact h
        | some pl =>
          simp only
          have hmid := damageMid_genAhead s pid planetId unitId (hpOpt.getD 1) q pl h
          rcases hscan : scanActive (damageMid s pid planetId unitId (hpOpt.getD 1) q pl).planets
              (damageMid s pid planetId unitId (hpOpt.getD 1) q pl).players [] with ⟨acc, brk⟩
          cases brk
          · cases acc
            · exact hmid
            · exact ⟨hmid.1, by intro r hr; exact absurd hr (List.not_mem_nil r)⟩
          · cases acc
            · exact hmid
            · exact hmid
    · exact h

/-- Accepting a connection preserves the generator invariant (the new
player holds no units). -/
theorem acceptClient_genAhead (s : ServerState) (h : GenAhead s) :
    GenAhead (acceptClient s) := by
  refine ⟨h.1, ?_⟩
  intro r hr i hir
  show 0 ≤ i ∧ i < s.idGen
  rcases List.mem_append.mp hr with hmr | hmr
  · exact h.2 r hmr i hir
  · have hre : r = { id := s.next_player_id + 1, ready := false, rendered := false, object_ids := [] } := by
      simpa using hmr
    subst hre
    simp at hir

/-- Dropping a client preserves the generator invariant. -/
theorem removeClient_genAhead (s : ServerState) (c : Nat) (h : GenAhead s) :
    GenAhead (removeClient s c) := by
  refine ⟨h.1, ?_⟩
  intro r hr i hir
  exact h.2 r (List.mem_of_mem_filter hr) i hir

theorem tstep_genAhead {s s' : ServerState} {δ : List Nat} (hst : TStep s δ s')
    (h : GenAhead s) : GenAhead s' := by
  cases hst with
  | accept h1 h2 h3 => exact acceptClient_genAhead s h
  | handle gen e hrun =>
    have hg := handleEvent_genAhead gen s e h
    rw [hrun] at hg
    exact hg
  | disconnect c hc => exact removeClient_genAhead s c h

/-- The generator invariant holds in every reachable server state: the
counter hypothesis of the select theorems is established along every
trace, not assumed. -/
theorem reachable_genAhead {s : ServerState} (h : Reachable s) : GenAhead s := by
  obtain ⟨log, hlog⟩ := h
  induction hlog with
  | init => exact (by decide : GenAhead initState)
  | step hprev hst ih => exact tstep_genAhead hst ih

/-- The complete mint log of any execution is exactly the interval
`[0, idGen)`: the generator starts at 0, only grows, and every transition's
batch is the interval it consumed. -/
theorem mintLog_spec {s : ServerState} {ulog : List Int} (h : MintLog s ulog) :
    0 ≤ s.idGen ∧ ulog = mintIds 0 s.idGen := by
  induction h with
  | init => exact ⟨le_refl 0, rfl⟩
  | @step s1 s2 ul δ hprev hst ih =>
    obtain ⟨h0, hul⟩ := ih
    have hmono := tstep_idGen_le hst
    subst hul
    refine ⟨by omega, ?_⟩
    have e1 : ((s1.idGen.toNat : Int)) = s1.idGen := Int.toNat_of_nonneg h0
    have e2 : (((s2.idGen - s1.idGen).toNat : Int)) = s2.idGen - s1.idGen :=
      Int.toNat_of_nonneg (by omega)
    have h3 := mintIds_append 0 s1.idGen.toNat (s2.idGen - s1.idGen).toNat
    rw [e1, e2, zero_add] at h3
    rw [show s1.idGen + (s2.idGen - s1.idGen) = s2.idGen from by ring] at h3
    exact h3

/-- The select-loop invariant, for an arbitrary list of distinct, present
source planets: with the sender registered once, the percentage in
[0, 100], all planets inside the float-exact range and the generator ahead
of every issued id, the loop completes without error and (i) decrements
every owned requested planet by exactly the rounded ship count computed
from its units at entry and leaves every other planet untouched, (ii)
appends one contiguous batch of `K` freshly minted ids to the sender's
unit set, advancing the generator by exactly `K`, (iii) records under each
owned requested planet's key a batch of exactly its ship count, and (iv)
preserves the range and generator invariants (so each iteration's rounding
again happens inside the float-exact regime). -/
theorem selectLoop_spec (pid : Nat) (percentage : Int)
    (hpct0 : 0 ≤ percentage) (hpct1 : percentage ≤ 100) :
    ∀ (froms : List Int) (s : ServerState) (punits : List (Int × List Int)) (q : Player),
      froms.Nodup →
      (∀ planetId ∈ froms, (findPlanet s.planets planetId).isSome = true) →
      (∀ planetId ∈ froms, ∀ kv ∈ punits, kv.1 ≠ planetId) →
      findPlayer s.players pid = some q →
      s.players.countP (fun r => decide (r.id = pid)) ≤ 1 →
      PlanetsInRange s.planets →
      (∀ r ∈ s.players, ∀ i ∈ r.object_ids, i < s.idGen) →
      ∃ (K : Nat) (s' : ServerState) (newEntries : List (Int × List Int)),
        selectLoop pid percentage froms s punits = (s', punits ++ newEntries, none) ∧
        s'.idGen = s.idGen + (K : Int) ∧
        s'.outbox = s.outbox ∧
        s'.readiness = s.readiness ∧
        s'.game_started = s.game_started ∧
        s'.clients = s.clients ∧
        s'.next_player_id = s.next_player_id ∧
        s'.mapGenCount = s.mapGenCount ∧
        (∀ r ∈ s'.players, r.id = pid →
          r.object_ids = q.object_ids ++ mintIds s.idGen (K : Int)) ∧
        (∀ r ∈ s'.players, r.id ≠ pid → r ∈ s.players) ∧
        (∀ planetId2, planetId2 ∉ froms →
          findPlanet s'.planets planetId2 = findPlanet s.planets planetId2) ∧
        (∀ planetId ∈ froms, ∀ pl, findPlanet s.planets planetId = some pl →
          (pl.owner = some pid →
            findPlanet s'.planets planetId =
              some { pl with
                units_count := pl.units_count - pyRound100 (pl.units_count * percentage) }) ∧
          (¬ pl.owner = some pid → findPlanet s'.planets planetId = some pl)) ∧
        newEntries.map (fun kv => (kv.1, kv.2.length)) =
          (froms.filter (fun planetId =>
              (findPlanet s.planets planetId).any
                (fun pl2 => decide (pl2.owner = some pid)))).map
            (fun planetId => (planetId,
              (findPlanet s.planets planetId).elim 0
                (fun pl2 => (pyRound100 (pl2.units_count * percentage)).toNat))) ∧
        PlanetsInRange s'.planets ∧
        (∀ r ∈ s'.players, ∀ i ∈ r.object_ids, i < s'.idGen) := by
  intro froms
  induction froms with
  | nil =>
    intro s punits q hnd hpres hkeys hq hcount hrange hfresh
    refine ⟨0, s, [], by simp [selectLoop], by simp, rfl, rfl, rfl, rfl, rfl, rfl,
      ?_, ?_, ?_, ?_, rfl, hrange, hfresh⟩
    · intro r hr hrid
      have hq' : s.players.find? (fun r2 => decide (r2.id = pid)) = some q := hq
      have hrq : r = q := find?_unique hcount hq' hr (decide_eq_true hrid)
      rw [hrq]
      simp [mintIds]
    · intro r hr _
      exact hr
    · intro x hx
      rfl
    · intro planetId h
      exact absurd h (List.not_mem_nil _)
  | cons planetId rest ih =>
    intro s punits q hnd hpres hkeys hq hcount hrange hfresh
    have hndr : rest.Nodup := (List.nodup_cons.mp hnd).2
    have hnmem : planetId ∉ rest := (List.nodup_cons.mp hnd).1
    have hpsome := hpres planetId (List.mem_cons_self _ _)
    rcases hplE : findPlanet s.planets planetId with _ | pl
    · rw [hplE] at hpsome
      simp at hpsome
    · have hplE' : s.planets.find? (fun x => decide (x.id = planetId)) = some pl := hplE
      have hppl : pl.id = planetId := by simpa using List.find?_some hplE'
      have hplmem : pl ∈ s.planets := List.mem_of_find?_eq_some hplE'
      obtain ⟨hu0, hub⟩ := hrange pl hplmem
      have hq' : s.players.find? (fun r2 => decide (r2.id = pid)) = some q := hq
      have hqid : q.id = pid := by simpa using List.find?_some hq'
      by_cases how : pl.owner = some pid
      · -- owned head: one real iteration, then the induction hypothesis
        have hk0 : 0 ≤ pyRound100 (pl.units_count * percentage) :=
          pyRound100_nonneg (mul_nonneg hu0 hpct0)
        have hkle : pyRound100 (pl.units_count * percentage) ≤ pl.units_count :=
          pyRound100_le (by nlinarith)
        have hstep := selectLoop_cons_owned pid percentage planetId rest s punits pl hplE how
          (fun kv hkv => hkeys planetId (List.mem_cons_self _ _) kv hkv)
        have hpres1 : ∀ id ∈ rest,
            (findPlanet (selectStep s pid planetId
              (pyRound100 (pl.units_count * percentage))).planets id).isSome = true := by
          intro id hid
          show (findPlanet (updPlanet s.planets planetId
            (fun p => { p with
              units_count := p.units_count - pyRound100 (pl.units_count * percentage) }))
            id).isSome = true
          rw [findPlanet_updPlanet_isSome s.planets planetId id
            (fun p => { p with
              units_count := p.units_count - pyRound100 (pl.units_count * percentage) }) (fun p => rfl)]
          exact hpres id (List.mem_cons_of_mem _ hid)
        have hkeys1 : ∀ id ∈ rest, ∀ kv ∈ punits ++
            [(planetId, mintIds s.idGen (pyRound100 (pl.units_count * percentage)))],
            kv.1 ≠ id := by
          intro id hid kv hkv
          rcases List.mem_append.mp hkv with h | h
          · exact hkeys id (List.mem_cons_of_mem _ hid) kv h
          · have hkvp : kv =
                (planetId, mintIds s.idGen (pyRound100 (pl.units_count * percentage))) := by
              simpa using h
            subst hkvp
            intro hcontra
            have hpi : planetId = id := hcontra
            subst hpi
            exact hnmem hid
        have hq1 : findPlayer (selectStep s pid planetId
            (pyRound100 (pl.units_count * percentage))).players pid =
            some { q with object_ids :=
              q.object_ids ++ mintIds s.idGen (pyRound100 (pl.units_count * percentage)) } := by
          show (updateFirst (fun r => decide (r.id = pid))
            (fun r => { r with object_ids :=
              r.object_ids ++ mintIds s.idGen (pyRound100 (pl.units_count * percentage)) })
            s.players).find? (fun r => decide (r.id = pid)) = _
          exact find?_updateFirst hq' (by simp [hqid])
        have hcount1 : (selectStep s pid planetId
            (pyRound100 (pl.units_count * percentage))).players.countP
            (fun r => decide (r.id = pid)) ≤ 1 := by
          show (updPlayer s.players pid
            (fun r => { r with object_ids :=
              r.object_ids ++ mintIds s.idGen (pyRound100 (pl.units_count * percentage)) })).countP
            (fun r => decide (r.id = pid)) ≤ 1
          rw [countP_updPlayer s.players pid pid
            (fun r => { r with object_ids :=
              r.object_ids ++ mintIds s.idGen (pyRound100 (pl.units_count * percentage)) }) (fun r => rfl)]
          exact hcount
        have hrange1 : PlanetsInRange (selectStep s pid planetId
            (pyRound100 (pl.units_count * percentage))).planets := by
          intro x hx
          rcases mem_updateFirst hx with hmx | ⟨a, ha, rfl⟩
          · exact hrange x hmx
          · rw [hplE'] at ha
            injection ha with ha
            subst ha
            constructor
            · show 0 ≤ pl.units_count - pyRound100 (pl.units_count * percentage)
              omega
            · show pl.units_count - pyRound100 (pl.units_count * percentage) ≤ unitsFloatSafe
              omega
        have hfresh1 : ∀ r ∈ (selectStep s pid planetId
            (pyRound100 (pl.units_count * percentage))).players,
            ∀ i ∈ r.object_ids, i < (selectStep s pid planetId
              (pyRound100 (pl.units_count * percentage))).idGen := by
          intro r hr i hir
          show i < s.idGen + ((pyRound100 (pl.units_count * percentage)).toNat : Int)
          rcases mem_updateFirst hr with hmr | ⟨a, ha, rfl⟩
          · have := hfresh r hmr i hir
            omega
          · have hamem := List.mem_of_find?_eq_some ha
            simp only at hir
            rcases List.mem_append.mp hir with hold | hnew
            · have := hfresh a hamem i hold
              omega
            · rcases mem_mintIds.mp hnew with ⟨j, hj, rfl⟩
              omega
        rcases ih (selectStep s pid planetId (pyRound100 (pl.units_count * percentage)))
          (punits ++ [(planetId, mintIds s.idGen (pyRound100 (pl.units_count * percentage)))])
          { q with object_ids :=
            q.object_ids ++ mintIds s.idGen (pyRound100 (pl.units_count * percentage)) }
          hndr hpres1 hkeys1 hq1 hcount1 hrange1 hfresh1 with
          ⟨K2, s', newEntries2, c1, c2, c3, c4, c5, c6, c7, c8, c9, c10, c11, c12, c13, c14, c15⟩
        refine ⟨(pyRound100 (pl.units_count * percentage)).toNat + K2, s',
          (planetId, mintIds s.idGen (pyRound100 (pl.units_count * percentage))) :: newEntries2,
          ?_, ?_, c3, c4, c5, c6, c7, c8, ?_, ?_, ?_, ?_, ?_, c14, c15⟩
        · rw [hstep, c1]
          simp
        · have c2' : s'.idGen = s.idGen +
              ((pyRound100 (pl.units_count * percentage)).toNat : Int) + (K2 : Int) := c2
          rw [c2']
          push_cast
          ring
        · intro r hr hrid
          have h1 := c9 r hr hrid
          rw [h1]
          show (q.object_ids ++ mintIds s.idGen (pyRound100 (pl.units_count * percentage))) ++
              mintIds (s.idGen +
                (((pyRound100 (pl.units_count * percentage)).toNat : Nat) : Int)) (K2 : Int) =
            q.object_ids ++ mintIds s.idGen
              ((((pyRound100 (pl.units_count * percentage)).toNat + K2 : Nat)) : Int)
          rw [List.append_assoc]
          congr 1
          exact mintIds_append_int s.idGen (pyRound100 (pl.units_count * percentage)) K2
        · intro r hr hrne
          rcases mem_updateFirst (c10 r hr hrne) with hm | ⟨a, ha, rfl⟩
          · exact hm
          · exfalso
            have haid : a.id = pid := by simpa using List.find?_some ha
            exact hrne haid
        · intro x hx
          have hxr : x ∉ rest := fun hh => hx (List.mem_cons_of_mem _ hh)
          have hxp : x ≠ planetId := fun hh => hx (by rw [hh]; exact List.mem_cons_self _ _)
          rw [c11 x hxr]
          show findPlanet (updPlanet s.planets planetId
            (fun p => { p with
              units_count := p.units_count - pyRound100 (pl.units_count * percentage) })) x =
            findPlanet s.planets x
          exact findPlanet_updPlanet_ne s.planets planetId x
            (fun p => { p with
              units_count := p.units_count - pyRound100 (pl.units_count * percentage) }) (fun p => rfl) hxp
        · intro id hid pl2 hpl2
          rcases List.mem_cons.mp hid with hed | hid2
          · subst hed
            rw [hplE] at hpl2
            injection hpl2 with hpl2
            subst hpl2
            constructor
            · intro _
              rw [c11 id hnmem]
              show findPlanet (updPlanet s.planets id
                (fun p => { p with
                  units_count := p.units_count - pyRound100 (pl.units_count * percentage) })) id =
                some { pl with
                  units_count := pl.units_count - pyRound100 (pl.units_count * percentage) }
              exact find?_updateFirst hplE' (by simp [hppl])
            · intro hno
              exact absurd how hno
          · have hi2p : id ≠ planetId := fun hh => hnmem (by rw [← hh]; exact hid2)
            have hplE2 : findPlanet (selectStep s pid planetId
                (pyRound100 (pl.units_count * percentage))).planets id = some pl2 := by
              show findPlanet (updPlanet s.planets planetId
                (fun p => { p with
                  units_count := p.units_count - pyRound100 (pl.units_count * percentage) })) id =
                some pl2
              rw [findPlanet_updPlanet_ne s.planets planetId id
                (fun p => { p with
              units_count := p.units_count - pyRound100 (pl.units_count * percentage) }) (fun p => rfl) hi2p]
              exact hpl2
            exact c12 id hid2 pl2 hplE2
        · have hPtrue : ((findPlanet s.planets planetId).any
              (fun pl2 => decide (pl2.owner = some pid))) = true := by
            rw [hplE]
            simpa using how
          rw [List.map_cons, List.filter_cons_of_pos (by simpa using hPtrue), List.map_cons]
          congr 1
          · show ((planetId : Int),
                (mintIds s.idGen (pyRound100 (pl.units_count * percentage))).length) =
              (planetId, (findPlanet s.planets planetId).elim 0
                (fun pl2 => (pyRound100 (pl2.units_count * percentage)).toNat))
            rw [mintIds_length, hplE]
            rfl
          · have hPfix : ∀ x ∈ rest,
                ((findPlanet (selectStep s pid planetId
                    (pyRound100 (pl.units_count * percentage))).planets x).any
                  (fun pl2 => decide (pl2.owner = some pid))) =
                ((findPlanet s.planets x).any
                  (fun pl2 => decide (pl2.owner = some pid))) := by
              intro x hxr
              have hxp : x ≠ planetId := fun hh => hnmem (by rw [← hh]; exact hxr)
              show ((findPlanet (updPlanet s.planets planetId
                  (fun p => { p with
                    units_count := p.units_count - pyRound100 (pl.units_count * percentage) }))
                  x).any (fun pl2 => decide (pl2.owner = some pid))) = _
              rw [findPlanet_updPlanet_ne s.planets planetId x
                (fun p => { p with
              units_count := p.units_count - pyRound100 (pl.units_count * percentage) }) (fun p => rfl) hxp]
            have hfeq : rest.filter (fun x =>
                (findPlanet (selectStep s pid planetId
                    (pyRound100 (pl.units_count * percentage))).planets x).any
                  (fun pl2 => decide (pl2.owner = some pid))) =
              rest.filter (fun x =>
                (findPlanet s.planets x).any
                  (fun pl2 => decide (pl2.owner = some pid))) :=
              List.filter_congr hPfix
            rw [c13, hfeq]
            apply List.map_congr_left
            intro x hxf
            have hxr := List.mem_of_mem_filter hxf
            have hxp : x ≠ planetId := fun hh => hnmem (by rw [← hh]; exact hxr)
            have hfp : findPlanet (selectStep s pid planetId
                (pyRound100 (pl.units_count * percentage))).planets x =
                findPlanet s.planets x := by
              show findPlanet (updPlanet s.planets planetId
                (fun p => { p with
                  units_count := p.units_count - pyRound100 (pl.units_count * percentage) })) x =
                findPlanet s.planets x
              exact findPlanet_updPlanet_ne s.planets planetId x
                (fun p => { p with
                  units_count := p.units_count - pyRound100 (pl.units_count * percentage) })
                (fun p => rfl) hxp
            show ((x : Int), ((findPlanet (selectStep s pid planetId
                (pyRound100 (pl.units_count * percentage))).planets x).elim 0
                  (fun pl2 => (pyRound100 (pl2.units_count * percentage)).toNat))) =
              (x, ((findPlanet s.planets x).elim 0
                (fun pl2 => (pyRound100 (pl2.units_count * percentage)).toNat)))
            rw [hfp]
      · -- head not owned: the iteration changes nothing
        have hstep := selectLoop_cons_skip pid percentage planetId rest s punits pl hplE how
        rcases ih s punits q hndr
          (fun id hid => hpres id (List.mem_cons_of_mem _ hid))
          (fun id hid kv hkv => hkeys id (List.mem_cons_of_mem _ hid) kv hkv)
          hq hcount hrange hfresh with
          ⟨K, s', newEntries, c1, c2, c3, c4, c5, c6, c7, c8, c9, c10, c11, c12, c13, c14, c15⟩
        refine ⟨K, s', newEntries, by rw [hstep]; exact c1, c2, c3, c4, c5, c6, c7, c8, c9, c10,
          ?_, ?_, ?_, c14, c15⟩
        · intro x hx
          exact c11 x (fun hh => hx (List.mem_cons_of_mem _ hh))
        · intro id hid pl2 hpl2
          rcases List.mem_cons.mp hid with hed | hid2
          · subst hed
            rw [hplE] at hpl2
            injection hpl2 with hpl2
            subst hpl2
            refine ⟨fun hOw => absurd hOw how, fun _ => ?_⟩
            rw [c11 id hnmem]
            exact hplE
          · exact c12 id hid2 pl2 hpl2
        · have hPfalse : ((findPlanet s.planets planetId).any
              (fun pl2 => decide (pl2.owner = some pid))) = false := by
            rw [hplE]
            simpa using how
          rw [List.filter_cons_of_neg (by simpa using hPfalse)]
          exact c13

/-! ### Wire lemmas -/

theorem natToCharsAux_zero (fuel : Nat) : natToCharsAux fuel 0 = [] := by
  cases fuel <;> rfl

theorem digitChar_isDigit {d : Nat} (h : d < 10) : (Nat.digitChar d).isDigit = true := by
  interval_cases d <;> decide

theorem digitChar_val {d : Nat} (h : d < 10) : digitVal (Nat.digitChar d) = d := by
  interval_cases d <;> decide

theorem digit_dispatch {c : Char} (h : c.isDigit = true) :
    c ≠ 'n' ∧ c ≠ 't' ∧ c ≠ 'f' ∧ c ≠ '"' ∧ c ≠ '[' ∧ c ≠ lbrace ∧ c ≠ '-' := by
  refine ⟨?_, ?_, ?_, ?_, ?_, ?_, ?_⟩ <;> rintro rfl <;> exact absurd h (by decide)

theorem foldl_digits (l : List Char) : ∀ a : Nat,
    l.foldl (fun a c => a * 10 + digitVal c) a = a * 10 ^ l.length + charsVal l := by
  induction l with
  | nil => intro a; simp [charsVal]
  | cons c cs ih =>
    intro a
    have h1 := ih (a * 10 + digitVal c)
    have h2 := ih (digitVal c)
    simp only [List.foldl_cons] at h1 ⊢
    rw [h1]
    have hval : charsVal (c :: cs) = digitVal c * 10 ^ cs.length + charsVal cs := by
      simp only [charsVal, List.foldl_cons, Nat.zero_mul, Nat.zero_add] at h2 ⊢
      rw [h2]
    rw [hval]
    simp [List.length_cons, pow_succ]
    ring

theorem charsVal_append_singleton (xs : List Char) (c : Char) :
    charsVal (xs ++ [c]) = charsVal xs * 10 + digitVal c := by
  simp [charsVal, List.foldl_append]

theorem natToCharsAux_spec :
    ∀ fuel n, n ≤ fuel → 1 ≤ n →
      (∀ c ∈ natToCharsAux fuel n, c.isDigit = true) ∧
      natToCharsAux fuel n ≠ [] ∧
      charsVal (natToCharsAux fuel n) = n := by
  intro fuel
  induction fuel with
  | zero => intro n h1 h2; omega
  | succ fuel ih =>
    intro n h1 h2
    match n, h2 with
    | n + 1, _ =>
      rw [natToCharsAux]
      have hmod : (n + 1) % 10 < 10 := Nat.mod_lt _ (by norm_num)
      by_cases hdiv : (n + 1) / 10 = 0
      · rw [hdiv, natToCharsAux_zero, List.nil_append]
        refine ⟨?_, by simp, ?_⟩
        · intro c hc
          rcases List.mem_singleton.mp hc with rfl
          exact digitChar_isDigit hmod
        · have : charsVal [Nat.digitChar ((n + 1) % 10)] = (n + 1) % 10 := by
            simp [charsVal, digitChar_val hmod]
          rw [this]
          omega
      · have hle : (n + 1) / 10 ≤ fuel := by
          have := Nat.div_lt_self (Nat.succ_pos n) (by norm_num : 1 < 10)
          omega
        rcases ih ((n + 1) / 10) hle (by omega) with ⟨hdig, hne, hval⟩
        refine ⟨?_, by simp [hne], ?_⟩
        · intro c hc
          rcases List.mem_append.mp hc with h | h
          · exact hdig c h
          · rcases List.mem_singleton.mp h with rfl
            exact digitChar_isDigit hmod
        · rw [charsVal_append_singleton, hval, digitChar_val hmod]
          omega

theorem natToChars_spec (n : Nat) :
    (∀ c ∈ natToChars n, c.isDigit = true) ∧
    natToChars n ≠ [] ∧
    charsVal (natToChars n) = n := by
  rw [natToChars]
  by_cases h : n = 0
  · subst h
    exact ⟨by decide, by decide, by decide⟩
  · rw [if_neg h]
    exact natToCharsAux_spec n n le_rfl (by omega)

theorem takeWhile_all {p : Char → Bool} {xs rest : List Char}
    (hxs : ∀ c ∈ xs, p c = true) (hrest : ∀ c, rest.head? = some c → p c = false) :
    (xs ++ rest).takeWhile p = xs ∧ (xs ++ rest).dropWhile p = rest := by
  induction xs with
  | nil =>
    simp only [List.nil_append]
    cases rest with
    | nil => exact ⟨rfl, rfl⟩
    | cons c cs =>
      have := hrest c rfl
      rw [List.takeWhile_cons, List.dropWhile_cons, this]
      exact ⟨rfl, rfl⟩
  | cons x xs ih =>
    have hx : p x = true := hxs x (List.mem_cons_self _ _)
    rcases ih (fun c hc => hxs c (List.mem_cons_of_mem _ hc)) with ⟨h1, h2⟩
    rw [List.cons_append, List.takeWhile_cons, List.dropWhile_cons]
    simp [hx, h1, h2]

theorem parseNat_natToChars (n : Nat) (rest : List Char) (hrest : noDigit rest) :
    parseNat (natToChars n ++ rest) = some (n, rest) := by
  rcases natToChars_spec n with ⟨hdig, hne, hval⟩
  rcases takeWhile_all hdig hrest with ⟨h1, h2⟩
  rw [parseNat]
  simp only [h1, h2]
  rw [if_neg (by simpa using hne)]
  rw [hval]

theorem noDigit_cons {c : Char} (h : c.isDigit = false) (l : List Char) :
    noDigit (c :: l) := by
  intro d hd
  simp only [List.head?_cons, Option.some.injEq] at hd
  subst hd
  exact h

theorem noDigit_items (xs : List JVal) (rest : List Char) :
    noDigit (dumpsItems xs ++ (']' :: rest)) := by
  cases xs with
  | nil =>
    rw [dumpsItems, List.nil_append]
    exact noDigit_cons (by decide) _
  | cons x xs =>
    rw [dumpsItems, List.cons_append]
    exact noDigit_cons (by decide) _

theorem noDigit_fields (fs : List (List Char × JVal)) (rest : List Char) :
    noDigit (dumpsFields fs ++ (rbrace :: rest)) := by
  cases fs with
  | nil =>
    rw [dumpsFields, List.nil_append]
    exact noDigit_cons (by decide) _
  | cons f fs =>
    rw [dumpsFields, List.cons_append]
    exact noDigit_cons (by decide) _

/-- Every dumps rendering is non-empty and starts with a character other
than the two closing brackets (so array/object emptiness tests on the next
value cannot misfire). -/
theorem dumpsV_head (v : JVal) :
    ∃ c t, dumpsV v = c :: t ∧ c ≠ ']' ∧ c ≠ rbrace := by
  cases v with
  | jnull => exact ⟨'n', _, rfl, by decide, by decide⟩
  | jbool b =>
    cases b
    · exact ⟨'f', _, rfl, by decide, by decide⟩
    · exact ⟨'t', _, rfl, by decide, by decide⟩
  | jint n =>
    rw [dumpsV]
    by_cases hn : n < 0
    · rw [if_pos hn]
      exact ⟨'-', _, rfl, by decide, by decide⟩
    · rw [if_neg hn]
      rcases natToChars_spec n.toNat with ⟨hdig, hne, _⟩
      rcases hcn : natToChars n.toNat with _ | ⟨c, t⟩
      · exact absurd hcn hne
      · have hc : c.isDigit = true := hdig c (by rw [hcn]; exact List.mem_cons_self _ _)
        refine ⟨c, t, rfl, ?_, ?_⟩
        · rintro rfl
          exact absurd hc (by decide)
        · rintro rfl
          exact absurd hc (by decide)
  | jstr str => exact ⟨'"', _, rfl, by decide, by decide⟩
  | jarr xs =>
    cases xs
    · exact ⟨'[', _, rfl, by decide, by decide⟩
    · exact ⟨'[', _, rfl, by decide, by decide⟩
  | jobj fs =>
    cases fs
    · exact ⟨lbrace, _, rfl, by decide, by decide⟩
    · exact ⟨lbrace, _, rfl, by decide, by decide⟩

/-- The reader inverts dumps: with fuel at least the text length, parsing a
dumped well-formed value (followed by any non-digit-leading remainder)
returns exactly that value and the remainder.  Proved simultaneously for
values, object fields, array tails and object tails by induction on the
fuel. -/
theorem parse_dumps_all : ∀ fuel : Nat,
    (∀ (v : JVal) (rest : List Char), wfJ v = true →
      (dumpsV v).length ≤ fuel → noDigit rest →
      parseV fuel (dumpsV v ++ rest) = some (v, rest)) ∧
    (∀ (k : List Char) (v : JVal) (rest : List Char), goodStr k = true → wfJ v = true →
      (dumpsField (k, v)).length ≤ fuel → noDigit rest →
      parseField fuel (dumpsField (k, v) ++ rest) = some ((k, v), rest)) ∧
    (∀ (xs : List JVal) (rest : List Char), wfItems xs = true →
      (dumpsItems xs).length + 1 ≤ fuel →
      parseItems fuel (dumpsItems xs ++ (']' :: rest)) = some (xs, rest)) ∧
    (∀ (fs : List (List Char × JVal)) (rest : List Char), wfFields fs = true →
      (dumpsFields fs).length + 1 ≤ fuel →
      parseFields fuel (dumpsFields fs ++ (rbrace :: rest)) = some (fs, rest)) := by
  intro fuel
  induction fuel with
  | zero =>
    refine ⟨?_, ?_, ?_, ?_⟩
    · intro v rest _ hlen _
      rcases dumpsV_head v with ⟨c, t, hct, _, _⟩
      rw [hct] at hlen
      simp at hlen
    · intro k v rest _ _ hlen _
      rw [dumpsField] at hlen
      simp at hlen
    · intro xs rest _ hlen
      omega
    · intro fs rest _ hlen
      omega
  | succ fuel ih =>
    obtain ⟨ihV, ihF, ihI, ihFs⟩ := ih
    refine ⟨?_, ?_, ?_, ?_⟩
    · intro v rest hwf hlen hrest
      cases v with
      | jnull => rfl
      | jbool b => cases b <;> rfl
      | jint n =>
        by_cases hn : n < 0
        · have hd : dumpsV (.jint n) = '-' :: natToChars (-n).toNat := by
            rw [dumpsV, if_pos hn]
          rw [hd, List.cons_append]
          rw [parseV]
          rw [if_neg (by decide), if_neg (by decide), if_neg (by decide), if_neg (by decide),
            if_neg (by decide), if_neg (by decide), if_pos (rfl : ('-' : Char) = '-')]
          rw [parseNat_natToChars _ _ hrest]
          show some (JVal.jint (-(((-n).toNat : Int))), rest) = some (JVal.jint n, rest)
          have heq : -(((-n).toNat : Int)) = n := by omega
          rw [heq]
        · have hd : dumpsV (.jint n) = natToChars n.toNat := by
            rw [dumpsV, if_neg hn]
          rw [hd]
          rcases natToChars_spec n.toNat with ⟨hdig, hne, hval⟩
          rcases hc : natToChars n.toNat with _ | ⟨c, cs⟩
          · exact absurd hc hne
          · have hcdig : c.isDigit = true := by
              apply hdig
              rw [hc]
              exact List.mem_cons_self _ _
            rcases digit_dispatch hcdig with ⟨d1, d2, d3, d4, d5, d6, d7⟩
            rw [List.cons_append]
            rw [parseV]
            rw [if_neg d1, if_neg d2, if_neg d3, if_neg d4, if_neg d5, if_neg d6, if_neg d7,
              if_pos hcdig]
            rw [← List.cons_append, ← hc]
            rw [parseNat_natToChars _ _ hrest]
            show some (JVal.jint ((n.toNat : Int)), rest) = some (JVal.jint n, rest)
            rw [Int.toNat_of_nonneg (by omega)]
      | jstr str =>
        have hgood : goodStr str = true := hwf
        have hxs : ∀ c ∈ str, (fun x => decide (x ≠ '"')) c = true := by
          intro c hc
          have hgc := List.all_eq_true.mp hgood c hc
          simp [goodChar] at hgc
          simp [hgc.2.1]
        have hrest2 : ∀ c, (('"' :: rest).head? = some c) →
            (fun x => decide (x ≠ '"')) c = false := by
          intro c hc
          injection hc with hc
          subst hc
          simp
        rcases takeWhile_all hxs hrest2 with ⟨h1, h2⟩
        show parseV (fuel + 1) (('"' :: (str ++ ['"'])) ++ rest) = some (.jstr str, rest)
        rw [List.cons_append, List.append_assoc, List.singleton_append]
        rw [parseV]
        rw [if_neg (by decide), if_neg (by decide), if_neg (by decide),
          if_pos (rfl : ('"' : Char) = '"')]
        rw [h2, h1]
        rfl
      | jarr xs =>
        cases xs with
        | nil => rfl
        | cons x xs =>
          have hwf' : wfJ x = true ∧ wfItems xs = true := by
            have h0 : wfItems (x :: xs) = true := hwf
            rw [wfItems] at h0
            simpa using h0
          have hlen' : (dumpsV x).length + ((dumpsItems xs).length + 1) ≤ fuel := by
            have h0 : (dumpsV (.jarr (x :: xs))).length ≤ fuel + 1 := hlen
            rw [dumpsV] at h0
            simpa using h0
          rcases dumpsV_head x with ⟨c0, t0, hct, hc1, hc2⟩
          show parseV (fuel + 1) (('[' :: (dumpsV x ++ (dumpsItems xs ++ [']']))) ++ rest) = _
          rw [List.cons_append, List.append_assoc, List.append_assoc, List.singleton_append]
          rw [parseV]
          rw [if_neg (by decide), if_neg (by decide), if_neg (by decide), if_neg (by decide),
            if_pos (rfl : ('[' : Char) = '[')]
          rw [hct, List.cons_append]
          rw [if_neg (by simp only [List.head?_cons, Option.some.injEq]; exact hc1)]
          rw [← List.cons_append, ← hct]
          rw [ihV x (dumpsItems xs ++ (']' :: rest)) hwf'.1 (by omega) (noDigit_items xs rest)]
          show (do
            let (vs, r2) ← parseItems fuel (dumpsItems xs ++ (']' :: rest))
            some (JVal.jarr (x :: vs), r2) : Option (JVal × List Char)) =
              some (JVal.jarr (x :: xs), rest)
          rw [ihI xs rest hwf'.2 (by omega)]
          rfl
      | jobj fs =>
        cases fs with
        | nil => rfl
        | cons f fs =>
          rcases f with ⟨k, v⟩
          have hwf' : (goodStr k = true ∧ wfJ v = true) ∧ wfFields fs = true := by
            have h0 : wfFields ((k, v) :: fs) = true := hwf
            rw [wfFields] at h0
            simpa using h0
          have hlen' : (dumpsField (k, v)).length + ((dumpsFields fs).length + 1) ≤ fuel := by
            have h0 : (dumpsV (.jobj ((k, v) :: fs))).length ≤ fuel + 1 := hlen
            rw [dumpsV] at h0
            simpa using h0
          show parseV (fuel + 1)
            ((lbrace :: (dumpsField (k, v) ++ (dumpsFields fs ++ [rbrace]))) ++ rest) = _
          rw [List.cons_append, List.append_assoc, List.append_assoc, List.singleton_append]
          rw [parseV]
          rw [if_neg (by decide), if_neg (by decide), if_neg (by decide), if_neg (by decide),
            if_neg (by decide), if_pos (rfl : lbrace = lbrace)]
          rw [dumpsField, List.cons_append]
          rw [if_neg (by simp only [List.head?_cons, Option.some.injEq]; decide)]
          rw [← List.cons_append, ← dumpsField]
          rw [ihF k v (dumpsFields fs ++ (rbrace :: rest)) hwf'.1.1 hwf'.1.2 (by omega)
            (noDigit_fields fs rest)]
          show (do
            let (gs, r2) ← parseFields fuel (dumpsFields fs ++ (rbrace :: rest))
            some (JVal.jobj ((k, v) :: gs), r2) : Option (JVal × List Char)) =
              some (JVal.jobj ((k, v) :: fs), rest)
          rw [ihFs fs rest hwf'.2 (by omega)]
          rfl
    · intro k v rest hk hv hlen hrest
      have hlenv : (dumpsV v).length ≤ fuel := by
        rw [dumpsField] at hlen
        simp at hlen
        omega
      have hxs : ∀ c ∈ k, (fun x => decide (x ≠ '"')) c = true := by
        intro c hc
        have hgc := List.all_eq_true.mp hk c hc
        simp [goodChar] at hgc
        simp [hgc.2.1]
      have hrest2 : ∀ c, (('"' :: (':' :: ' ' :: (dumpsV v ++ rest))).head? = some c) →
          (fun x => decide (x ≠ '"')) c = false := by
        intro c hc
        injection hc with hc
        subst hc
        simp
      show parseField (fuel + 1) (('"' :: (k ++ ('"' :: ':' :: ' ' :: dumpsV v))) ++ rest) = _
      rw [List.cons_append, List.append_assoc, List.cons_append, List.cons_append,
        List.cons_append]
      rw [parseField]
      rw [if_pos (rfl : ('"' : Char) = '"')]
      rcases takeWhile_all hxs hrest2 with ⟨h1, h2⟩
      simp only [h1, h2, List.isEmpty_cons, Bool.false_eq_true, if_false, List.tail_cons,
        List.take_succ_cons, List.take_zero, List.drop_succ_cons, List.drop_zero]
      rw [if_pos trivial]
      rw [ihV v rest hv hlenv hrest]
      rfl
    · intro xs rest hwf hlen
      cases xs with
      | nil => rfl
      | cons x xs =>
        have hwf' : wfJ x = true ∧ wfItems xs = true := by
          have h0 : wfItems (x :: xs) = true := hwf
          rw [wfItems] at h0
          simpa using h0
        have hlen' : (dumpsV x).length + ((dumpsItems xs).length + 1) + 2 ≤ fuel + 1 := by
          have h0 : (dumpsItems (x :: xs)).length + 1 ≤ fuel + 1 := hlen
          rw [dumpsItems] at h0
          simp at h0
          omega
        show parseItems (fuel + 1) ((',' :: ' ' :: (dumpsV x ++ dumpsItems xs)) ++ (']' :: rest)) = _
        rw [List.cons_append, List.cons_append, List.append_assoc]
        rw [parseItems]
        rw [if_neg (by decide), if_pos (rfl : (',' : Char) = ',')]
        simp only [List.head?_cons]
        rw [if_pos trivial]
        simp only [List.tail_cons]
        rw [ihV x (dumpsItems xs ++ (']' :: rest)) hwf'.1 (by omega) (noDigit_items xs rest)]
        show (do
          let (vs, r2) ← parseItems fuel (dumpsItems xs ++ (']' :: rest))
          some ((x :: vs : List JVal), r2) : Option (List JVal × List Char)) =
            some (x :: xs, rest)
        rw [ihI xs rest hwf'.2 (by omega)]
        rfl
    · intro fs rest hwf hlen
      cases fs with
      | nil => rfl
      | cons f fs =>
        rcases f with ⟨k, v⟩
        have hwf' : (goodStr k = true ∧ wfJ v = true) ∧ wfFields fs = true := by
          have h0 : wfFields ((k, v) :: fs) = true := hwf
          rw [wfFields] at h0
          simpa using h0
        have hlen' : (dumpsField (k, v)).length + ((dumpsFields fs).length + 1) + 2 ≤ fuel + 1 := by
          have h0 : (dumpsFields ((k, v) :: fs)).length + 1 ≤ fuel + 1 := hlen
          rw [dumpsFields] at h0
          simp at h0
          omega
        show parseFields (fuel + 1)
          ((',' :: ' ' :: (dumpsField (k, v) ++ dumpsFields fs)) ++ (rbrace :: rest)) = _
        rw [List.cons_append, List.cons_append, List.append_assoc]
        rw [parseFields]
        rw [if_neg (by decide), if_pos (rfl : (',' : Char) = ',')]
        simp only [List.head?_cons]
        rw [if_pos trivial]
        simp only [List.tail_cons]
        rw [ihF k v (dumpsFields fs ++ (rbrace :: rest)) hwf'.1.1 hwf'.1.2 (by omega)
          (noDigit_fields fs rest)]
        show (do
          let (gs, r2) ← parseFields fuel (dumpsFields fs ++ (rbrace :: rest))
          some (((k, v) :: gs : List (List Char × JVal)), r2) :
            Option (List (List Char × JVal) × List Char)) =
            some ((k, v) :: fs, rest)
        rw [ihFs fs rest hwf'.2 (by omega)]
        rfl

/-- Unpacking the packed length prefix recovers any non-negative value below
2^31. -/
theorem unpack_pack (n : Int) (h0 : 0 ≤ n) (h1 : n < 2147483648) :
    unpackI32 (packI32 n) = some n := by
  have hmod : n % (4294967296 : Int) = n := Int.emod_eq_of_lt h0 (by omega)
  rw [packI32]
  simp only [hmod]
  rw [unpackI32]
  have hsum : n.toNat % 256 % 256 + 256 * (n.toNat / 256 % 256 % 256) +
      65536 * (n.toNat / 65536 % 256 % 256) +
      16777216 * (n.toNat / 16777216 % 256 % 256) = n.toNat := by
    have hlt : n.toNat < 4294967296 := by omega
    omega
  simp only [hsum]
  rw [if_pos (by omega)]
  congr 1
  omega

/-- Length-prefixed framing of an ASCII text decodes to the parse of that
text. -/
theorem decodeFrame_concat (L : List Char) (h : (L.length : Int) < 2147483648) :
    decodeFrame (packI32 (L.length : Int) ++ L.map Char.toNat) =
      (match parseV L.length L with
       | some (v, []) => some v
       | _ => none) := by
  rw [decodeFrame]
  have hpack4 : (packI32 (L.length : Int)).length = 4 := rfl
  rw [← hpack4, List.take_left, List.drop_left]
  rw [unpack_pack _ (by omega) h]
  show (if ((L.length : Int)) < 0 then none
    else
      let body := (L.map Char.toNat).take ((L.length : Int)).toNat
      if (L.map Char.toNat).length < ((L.length : Int)).toNat then none
      else
        match parseV body.length (body.map Char.ofNat) with
        | some (v, []) => some v
        | _ => none) = _
  rw [if_neg (by omega)]
  show (if (L.map Char.toNat).length < ((L.length : Int)).toNat then none
    else
      match parseV ((L.map Char.toNat).take ((L.length : Int)).toNat).length
          (((L.map Char.toNat).take ((L.length : Int)).toNat).map Char.ofNat) with
      | some (v, []) => some v
      | _ => none) = _
  have htoNat : ((L.length : Int)).toNat = L.length := by omega
  have hmaplen : (L.map Char.toNat).length = L.length := List.length_map _ _
  rw [htoNat]
  rw [if_neg (by omega)]
  have htake : (L.map Char.toNat).take L.length = L.map Char.toNat := by
    rw [← hmaplen]
    exact List.take_length _
  rw [htake]
  have hmapmap : (L.map Char.toNat).map Char.ofNat = L := by
    rw [List.map_map]
    have hco : (Char.ofNat ∘ Char.toNat) = id := by
      funext c
      exact Char.ofNat_toNat c
    rw [hco, List.map_id]
  rw [hmapmap, hmaplen]

/-- Decoding the request frame recovers exactly the `{name, ...payload}`
object. -/
theorem decodeFrame_request (name : List Char) (payload : List (List Char × JVal))
    (hname : goodStr name = true) (hwf : wfFields payload = true)
    (hlen : (dumpsV (.jobj ((nameKey, .jstr name) :: payload))).length < 2147483648) :
    decodeFrame (request name payload) = some (.jobj ((nameKey, .jstr name) :: payload)) := by
  have hwfobj : wfJ (.jobj ((nameKey, .jstr name) :: payload)) = true := by
    show wfFields ((nameKey, .jstr name) :: payload) = true
    rw [wfFields]
    simp only [Bool.and_eq_true]
    exact ⟨⟨by decide, hname⟩, hwf⟩
  simp only [request]
  rw [decodeFrame_concat _ (by omega)]
  have hparse := (parse_dumps_all (dumpsV (.jobj ((nameKey, .jstr name) :: payload))).length).1
    (.jobj ((nameKey, .jstr name) :: payload)) [] hwfobj le_rfl (by intro c hc; cases hc)
  rw [List.append_nil] at hparse
  rw [hparse]

/-! ### Claims -/

/-- C3: there is a reachable state (session A after seven steps) in which a
damage event leaves no player holding both a unit and a planet; the
game-over branch then evaluates `active_players[0]` on the empty list, and
the handler's error branch (the unguarded `IndexError`) is taken. -/
theorem C3_empty_winner_reachable :
    Reachable trA7 ∧
    (handleEvent gen0 trA7 (.damage 1 2 0 (some 1))).2 = some HErr.indexError ∧
    ((handleEvent gen0 trA7 (.damage 1 2 0 (some 1))).1.players.filter
      (qualifies (handleEvent gen0 trA7 (.damage 1 2 0 (some 1))).1.planets)).length = 0 :=
  ⟨reachable_trA7, by decide, by decide⟩

/-- C4 (code bug): map generation is not guarded by `readiness`.  In the
reachable state trA4 the map has been generated exactly once and readiness
is true; a player re-submitting `ready=true` is handled without error and
triggers a second map generation and a second map-init broadcast within the
same session (no game-over occurred in between). -/
theorem C4_mapgen_retrigger :
    Reachable trA4 ∧ trA4.readiness = true ∧ trA4.mapGenCount = 1 ∧
    trA4.outbox.countP isMapInit = 1 ∧
    (handleEvent gen0 trA4 (.ready 1 true)).2 = none ∧
    (handleEvent gen0 trA4 (.ready 1 true)).1.mapGenCount = 2 ∧
    (handleEvent gen0 trA4 (.ready 1 true)).1.outbox.countP isMapInit = 2 ∧
    (handleEvent gen0 trA4 (.ready 1 true)).1.readiness = true :=
  ⟨reachable_trA4, by decide, by decide, by decide, by decide, by decide, by decide, by decide⟩

/-- C5 (code bug): the rendered branch is not guarded by `readiness`.  A
single accepted client that reports rendered immediately drives
`game_started` to true in a reachable state whose `readiness` is still
false. -/
theorem C5_game_started_without_readiness :
    Reachable trB2 ∧ trB2.game_started = true ∧ trB2.readiness = false :=
  ⟨reachable_step (reachable_step ⟨[], ReachLog.init⟩
      (TStep.accept rfl rfl (by decide)))
      (TStep.handle gen0 (.rendered 1) (by decide)),
   by decide, by decide⟩

/-- C9: a damage event without an `hp_count` field is handled exactly as if
`hp_count` were 1 (the handler reads it with `payload.get('hp_count', 1)`),
and the target planet's unit count moves by exactly 1 — up for the owner,
down (with the usual flip at negative) otherwise. -/
theorem C9_damage_default_hp (gen : List Nat → List Planet) (s : ServerState)
    (pid : Nat) (planetId unitId : Int) (q : Player) (pl : Planet)
    (hg : s.game_started = true) (hq : findPlayer s.players pid = some q)
    (hpl : findPlanet s.planets planetId = some pl) (hmem : unitId ∈ q.object_ids) :
    handleEvent gen s (.damage pid planetId unitId none) =
      handleEvent gen s (.damage pid planetId unitId (some 1)) ∧
    findPlanet (handleEvent gen s (.damage pid planetId unitId none)).1.planets planetId =
      some (if pl.owner = some pid then { pl with units_count := pl.units_count + 1 }
            else if pl.units_count - 1 < 0 then
              { pl with owner := some pid, units_count := -(pl.units_count - 1) }
            else { pl with units_count := pl.units_count - 1 }) := by
  have hppl : pl.id = planetId := by
    rw [findPlanet] at hpl
    simpa using List.find?_some hpl
  refine ⟨rfl, ?_⟩
  rw [handleEvent_damage_planets gen s pid planetId unitId none q pl hg hq hpl]
  rw [damageMid, if_pos hmem]
  exact find?_updateFirst hpl (by split_ifs <;> simp [hppl])

/-- Witness for C9 at a concrete input: player 1 spends unit 7 against
foreign planet 3 (5 units) with no hp_count field; the planet drops to 4
units. -/
theorem C9_damage_default_hp_witness :
    (wit1.game_started = true ∧
     findPlayer wit1.players 1 = some { id := 1, ready := true, rendered := true, object_ids := [7] } ∧
     findPlanet wit1.planets 3 = some { id := 3, owner := some 2, units_count := 5 } ∧
     (7 : Int) ∈ ({ id := 1, ready := true, rendered := true, object_ids := [7] } : Player).object_ids) ∧
    (handleEvent gen0 wit1 (.damage 1 3 7 none) =
      handleEvent gen0 wit1 (.damage 1 3 7 (some 1)) ∧
    findPlanet (handleEvent gen0 wit1 (.damage 1 3 7 none)).1.planets 3 =
      some (if ({ id := 3, owner := some 2, units_count := 5 } : Planet).owner = some 1 then
              { id := 3, owner := some 2, units_count := 5 + 1 }
            else if (5 : Int) - 1 < 0 then
              { id := 3, owner := some 1, units_count := -((5 : Int) - 1) }
            else { id := 3, owner := some 2, units_count := 5 - 1 })) :=
  ⟨⟨by decide, by decide, by decide, by decide⟩,
   C9_damage_default_hp gen0 wit1 1 3 7
     { id := 1, ready := true, rendered := true, object_ids := [7] }
     { id := 3, owner := some 2, units_count := 5 }
     (by decide) (by decide) (by decide) (by decide)⟩

/-- C1: a damage event spending a unit the sender owns against a planet
owned by a different player, with damage exceeding the planet's unit count,
flips the planet to the sender with unit count equal to the deficit
(damage minus previous units), and the consumed unit id is removed from the
sender's unit set. -/
theorem C1_damage_capture (gen : List Nat → List Planet) (s : ServerState)
    (pid : Nat) (planetId unitId hp : Int) (q : Player) (pl : Planet) (b : Nat)
    (hg : s.game_started = true)
    (hq : findPlayer s.players pid = some q)
    (hpl : findPlanet s.planets planetId = some pl)
    (howner : pl.owner = some b) (hneq : b ≠ pid)
    (hmem : unitId ∈ q.object_ids)
    (hexceeds : pl.units_count < hp)
    (hcount : s.players.countP (fun r => decide (r.id = pid)) ≤ 1) :
    findPlanet (handleEvent gen s (.damage pid planetId unitId (some hp))).1.planets planetId =
      some { pl with owner := some pid, units_count := hp - pl.units_count } ∧
    ∀ r ∈ (handleEvent gen s (.damage pid planetId unitId (some hp))).1.players,
      r.id = pid → r.object_ids = q.object_ids.erase unitId := by
  have hppl : pl.id = planetId := by
    rw [findPlanet] at hpl
    simpa using List.find?_some hpl
  have hnotown : ¬(pl.owner = some pid) := by
    rw [howner]
    intro h
    exact hneq (Option.some_injective _ h)
  have hneg : pl.units_count - hp < 0 := by omega
  constructor
  · rw [handleEvent_damage_planets gen s pid planetId unitId (some hp) q pl hg hq hpl]
    simp only [damageMid, Option.getD_some, if_pos hmem, if_neg hnotown, if_pos hneg]
    have harith : -(pl.units_count - hp) = hp - pl.units_count := by ring
    rw [harith]
    exact find?_updateFirst hpl (by simp [hppl])
  · intro r hr hid
    rcases handleEvent_damage_players gen s pid planetId unitId (some hp) q pl hg hq hpl
      with hP | hP
    · rw [hP] at hr
      simp only [damageMid, Option.getD_some, if_pos hmem] at hr
      have := updateFirst_unique hcount (by rw [findPlayer] at hq; exact hq) hr
        (decide_eq_true hid)
      rw [this]
    · rw [hP] at hr
      cases hr

/-- Witness for C1: in wit3, player 1 spends unit 7 (damage 7) on planet 3
owned by player 2 with 5 units; the planet flips to player 1 with 2 units
and unit 7 leaves player 1's set. -/
theorem C1_damage_capture_witness :
    (wit3.game_started = true ∧
     findPlayer wit3.players 1 =
       some { id := 1, ready := true, rendered := true, object_ids := [7, 9] } ∧
     findPlanet wit3.planets 3 = some { id := 3, owner := some 2, units_count := 5 } ∧
     (2 : Nat) ≠ 1 ∧ (7 : Int) ∈ [(7 : Int), 9] ∧ (5 : Int) < 7 ∧
     wit3.players.countP (fun r => decide (r.id = 1)) ≤ 1) ∧
    (findPlanet (handleEvent gen0 wit3 (.damage 1 3 7 (some 7))).1.planets 3 =
       some { id := 3, owner := some 1, units_count := 7 - 5 } ∧
     ∀ r ∈ (handleEvent gen0 wit3 (.damage 1 3 7 (some 7))).1.players,
       r.id = 1 → r.object_ids = ([7, 9] : List Int).erase 7) :=
  ⟨⟨by decide, by decide, by decide, by decide, by decide, by decide, by decide⟩,
   C1_damage_capture gen0 wit3 1 3 7 7
     { id := 1, ready := true, rendered := true, object_ids := [7, 9] }
     { id := 3, owner := some 2, units_count := 5 } 2
     (by decide) (by decide) (by decide) (by decide) (by decide) (by decide)
     (by decide) (by decide)⟩

/-- C2 counterexample: the claim asserts that whenever a damage event
leaves fewer than 2 qualifying players, a game-over event naming a winner is
broadcast and the session is reset.  In the reachable state trA7 the damage
event leaves zero qualifying players — fewer than 2 — yet no game-over event
is broadcast, readiness and game_started stay true and the player map stays
non-empty: the handler dies on the empty-list indexing instead. -/
theorem C2_gameover_counterexample :
    ((handleEvent gen0 trA7 (.damage 1 2 0 (some 1))).1.players.filter
      (qualifies (handleEvent gen0 trA7 (.damage 1 2 0 (some 1))).1.planets)).length < 2 ∧
    (handleEvent gen0 trA7 (.damage 1 2 0 (some 1))).1.outbox.countP isGameOver = 0 ∧
    (handleEvent gen0 trA7 (.damage 1 2 0 (some 1))).1.readiness = true ∧
    (handleEvent gen0 trA7 (.damage 1 2 0 (some 1))).1.game_started = true ∧
    (handleEvent gen0 trA7 (.damage 1 2 0 (some 1))).1.players ≠ [] :=
  ⟨by decide, by decide, by decide, by decide, by decide⟩

/-- C2 amended: after a damage event, game over fires exactly when fewer
than 2 players qualify; provided at least one player qualifies, the handler
completes without error and, when it fires, broadcasts a game-over event
naming the first qualifying player and resets readiness, game_started, the
player map and the connection list (when no player qualifies the handler
raises on the empty-list indexing instead, broadcasting and resetting
nothing). -/
theorem C2_gameover_amended (gen : List Nat → List Planet) (s : ServerState)
    (pid : Nat) (planetId unitId : Int) (hpOpt : Option Int) (q : Player) (pl : Planet)
    (hg : s.game_started = true) (hq : findPlayer s.players pid = some q)
    (hpl : findPlanet s.planets planetId = some pl)
    (hnonempty : 1 ≤ ((damageMid s pid planetId unitId (hpOpt.getD 1) q pl).players.filter
      (qualifies (damageMid s pid planetId unitId (hpOpt.getD 1) q pl).planets)).length) :
    (handleEvent gen s (.damage pid planetId unitId hpOpt)).2 = none ∧
    (if ((damageMid s pid planetId unitId (hpOpt.getD 1) q pl).players.filter
          (qualifies (damageMid s pid planetId unitId (hpOpt.getD 1) q pl).planets)).length < 2
     then ∃ w,
       (((damageMid s pid planetId unitId (hpOpt.getD 1) q pl).players.filter
          (qualifies (damageMid s pid planetId unitId (hpOpt.getD 1) q pl).planets)).map
            (fun r => r.id)).head? = some w ∧
       (handleEvent gen s (.damage pid planetId unitId hpOpt)).1 =
         { damageMid s pid planetId unitId (hpOpt.getD 1) q pl with
           readiness := false, game_started := false, players := [], clients := [],
           outbox := (damageMid s pid planetId unitId (hpOpt.getD 1) q pl).outbox
             ++ [.gameOver w] }
     else (handleEvent gen s (.damage pid planetId unitId hpOpt)).1 =
       damageMid s pid planetId unitId (hpOpt.getD 1) q pl) := by
  simp only [handleEvent, hg, if_true, hq, hpl]
  set m := damageMid s pid planetId unitId (hpOpt.getD 1) q pl with hm
  by_cases hlt : (m.players.filter (qualifies m.planets)).length < 2
  · have hlen : (m.players.filter (qualifies m.planets)).length = 1 := by omega
    rcases List.length_eq_one.mp hlen with ⟨r, hr⟩
    have hscan := @scanActive_complete m.planets m.players []
      (by rw [hr]; simp)
    rw [hr] at hscan
    simp only [List.nil_append, List.map_cons, List.map_nil] at hscan
    rw [hscan]
    rw [if_pos hlt]
    exact ⟨rfl, r.id, by rw [hr]; simp, rfl⟩
  · have hbreak := @scanActive_break m.planets m.players []
      (by simp) (by simp only [List.length_nil]; omega)
    rcases hscan : scanActive m.planets m.players [] with ⟨acc, brk⟩
    rw [hscan] at hbreak
    cases brk
    · simp at hbreak
    · cases acc
      all_goals rw [if_neg hlt]
      all_goals exact ⟨rfl, rfl⟩

/-- C6 counterexample: the claim says planet unit counts stay non-negative
for every select event with any requested percentage.  In wit2 (all planets
non-negative) a select with percentage 200 on the sender's 10-unit planet
completes without error and leaves the planet at -10 units. -/
theorem C6_nonneg_counterexample :
    PlanetsNonneg wit2.planets ∧
    (handleEvent gen0 wit2 (.select 1 [5] 200)).2 = none ∧
    findPlanet (handleEvent gen0 wit2 (.select 1 [5] 200)).1.planets 5 =
      some { id := 5, owner := some 1, units_count := -10 } :=
  ⟨by decide, by decide, by decide⟩

/-- C6 amended: every handled event preserves non-negativity of all planet
unit counts, provided the map generator produces non-negative planets, every
select percentage lies between 0 and 100, every hp amount is non-negative
(the source validates none of these client-supplied values, and a select
with percentage above 100 violates the invariant, as the counterexample
shows), and at select time every planet's unit count is at most
`unitsFloatSafe`.  The added magnitude bound is not needed by the
exact-arithmetic proof below; it is what confines the select arithmetic to
the regime where `pyRound100` provably equals the source's double-precision
`round(units_count * percentage / 100.0)`, so that the statement also reads
truthfully of the source — outside the bound the float rounding itself can
overshoot the unit count (e.g. `units_count = 2^53 + 1` at percentage 100
yields ship count `2^53 + 2`) and break the invariant even with a
percentage of at most 100. -/
theorem C6_nonneg_amended (gen : List Nat → List Planet) (s : ServerState) (e : CEvent)
    (s' : ServerState) (err : Option HErr)
    (hgen : ∀ ids, PlanetsNonneg (gen ids))
    (hpre : PlanetsNonneg s.planets) (hok : eventOK e = true)
    (hsel : ∀ pid froms percentage, e = .select pid froms percentage →
      ∀ pl ∈ s.planets, pl.units_count ≤ unitsFloatSafe)
    (hrun : handleEvent gen s e = (s', err)) :
    PlanetsNonneg s'.planets := by
  cases e with
  | ready pid val =>
    simp only [handleEvent] at hrun
    split at hrun
    · injection hrun with h1 h2; subst h1; exact hpre
    · split at hrun
      · injection hrun with h1 h2; subst h1; exact hgen _
      · injection hrun with h1 h2; subst h1; exact hpre
  | rendered pid =>
    simp only [handleEvent] at hrun
    split at hrun
    · injection hrun with h1 h2; subst h1; exact hpre
    · split at hrun
      · injection hrun with h1 h2; subst h1; exact hpre
      · injection hrun with h1 h2; subst h1; exact hpre
  | move pid unitId =>
    simp only [handleEvent] at hrun
    split at hrun
    · split at hrun
      · injection hrun with h1 h2; subst h1; exact hpre
      · split at hrun
        · injection hrun with h1 h2; subst h1; exact hpre
        · injection hrun with h1 h2; subst h1; exact hpre
    · injection hrun with h1 h2; subst h1; exact hpre
  | select pid froms percentage =>
    have hpct : percentage ≤ 100 := by
      simp only [eventOK, Bool.and_eq_true, decide_eq_true_eq] at hok
      exact hok.2
    simp only [handleEvent] at hrun
    split at hrun
    · split at hrun
      · injection hrun with h1 h2; subst h1; exact hpre
      · split at hrun
        case _ s'' punits heq =>
          injection hrun with h1 h2; subst h1
          have := selectLoop_nonneg pid percentage hpct froms s [] hpre
          rw [heq] at this
          exact this
        case _ s'' punits err' heq =>
          injection hrun with h1 h2; subst h1
          have := selectLoop_nonneg pid percentage hpct froms s [] hpre
          rw [heq] at this
          exact this
    · injection hrun with h1 h2; subst h1; exact hpre
  | add_hp pid planetId hp =>
    have hhp : 0 ≤ hp := of_decide_eq_true (by simpa [eventOK] using hok)
    simp only [handleEvent] at hrun
    split at hrun
    · split at hrun
      · injection hrun with h1 h2; subst h1; exact hpre
      · split at hrun
        · injection hrun with h1 h2; subst h1; exact hpre
        · split at hrun
          · injection hrun with h1 h2; subst h1
            intro x hx
            rcases mem_updateFirst hx with hmx | ⟨a, ha, hxa⟩
            · exact hpre x hmx
            · have hamem := List.mem_of_find?_eq_some ha
              have h0 : 0 ≤ a.units_count := hpre a hamem
              subst hxa
              simp
              omega
          · injection hrun with h1 h2; subst h1; exact hpre
    · injection hrun with h1 h2; subst h1; exact hpre
  | damage pid planetId unitId hpOpt =>
    have hhp : 0 ≤ hpOpt.getD 1 := of_decide_eq_true (by simpa [eventOK] using hok)
    simp only [handleEvent] at hrun
    split at hrun
    · split at hrun
      · injection hrun with h1 h2; subst h1; exact hpre
      · rename_i q hq
        split at hrun
        · injection hrun with h1 h2; subst h1; exact hpre
        · rename_i pl hfp
          split at hrun
          · injection hrun with h1 h2; subst h1
            exact damageMid_nonneg s pid planetId unitId (hpOpt.getD 1) q pl hfp hpre hhp
          · injection hrun with h1 h2; subst h1
            exact damageMid_nonneg s pid planetId unitId (hpOpt.getD 1) q pl hfp hpre hhp
          · injection hrun with h1 h2; subst h1
            exact damageMid_nonneg s pid planetId unitId (hpOpt.getD 1) q pl hfp hpre hhp
    · injection hrun with h1 h2; subst h1; exact hpre

/-- Witness for C6 amended: a select of 50% on the 10-unit planet in wit2
keeps every planet non-negative. -/
theorem C6_nonneg_amended_witness :
    ((∀ ids, PlanetsNonneg (gen0 ids)) ∧ PlanetsNonneg wit2.planets ∧
      eventOK (.select 1 [5] 50) = true ∧
      (∀ pl ∈ wit2.planets, pl.units_count ≤ unitsFloatSafe)) ∧
    PlanetsNonneg (handleEvent gen0 wit2 (.select 1 [5] 50)).1.planets :=
  ⟨⟨fun _ => (by decide :
      PlanetsNonneg [{ id := 1, owner := some 1, units_count := 1 },
                     { id := 2, owner := some 2, units_count := 0 }]),
    by decide, by decide, by decide⟩,
   C6_nonneg_amended gen0 wit2 (.select 1 [5] 50)
     (handleEvent gen0 wit2 (.select 1 [5] 50)).1
     (handleEvent gen0 wit2 (.select 1 [5] 50)).2
     (fun _ => (by decide :
       PlanetsNonneg [{ id := 1, owner := some 1, units_count := 1 },
                      { id := 2, owner := some 2, units_count := 0 }]))
     (by decide) (by decide) (fun _ _ _ _ => by decide) rfl⟩

/-- C7: (i) For every select event handled while game_started is true — on
any list of distinct, present source planets, with percentage in [0, 100],
the sender registered once, all planets inside the float-exact range
`unitsFloatSafe` (so that `pyRound100` is exactly the source's
double-precision round at every iteration) and the generator ahead of
every issued id — the handler succeeds; for each requested planet owned by
the sender it computes the ship count as
round(units_count * percentage / 100) on that planet's current units,
decreases the planet's units_count by exactly that amount and records
under its key a batch of exactly that many ids, while unowned or
unrequested planets are untouched; in total the loop mints the contiguous
fresh batch [idGen, idGen + K), advances the generator by exactly K,
appends the batch to the sender's unit set, and the batch is pairwise
distinct, disjoint from every existing unit set, with the generator
invariant surviving.  (ii) Along any execution the complete mint log is
exactly [0, idGen), so no unit id is ever issued twice across the session,
consumed ids included.  (iii) The generator-ahead hypothesis of (i) is not
an assumption about reachable states: it holds in every one of them. -/
theorem C7_select_mint :
    (∀ (gen : List Nat → List Planet) (s : ServerState) (pid : Nat)
        (froms : List Int) (percentage : Int) (q : Player),
      s.game_started = true →
      findPlayer s.players pid = some q →
      s.players.countP (fun r => decide (r.id = pid)) ≤ 1 →
      0 ≤ percentage → percentage ≤ 100 →
      PlanetsInRange s.planets →
      froms.Nodup →
      (∀ planetId ∈ froms, (findPlanet s.planets planetId).isSome = true) →
      (∀ r ∈ s.players, ∀ i ∈ r.object_ids, i < s.idGen) →
      ∃ (K : Nat) (punits : List (Int × List Int)),
        (handleEvent gen s (.select pid froms percentage)).2 = none ∧
        (handleEvent gen s (.select pid froms percentage)).1.idGen = s.idGen + (K : Int) ∧
        (handleEvent gen s (.select pid froms percentage)).1.outbox =
          s.outbox ++ [.selectEv punits] ∧
        punits.map (fun kv => (kv.1, kv.2.length)) =
          (froms.filter (fun planetId =>
              (findPlanet s.planets planetId).any
                (fun pl2 => decide (pl2.owner = some pid)))).map
            (fun planetId => (planetId,
              (findPlanet s.planets planetId).elim 0
                (fun pl2 => (pyRound100 (pl2.units_count * percentage)).toNat))) ∧
        (∀ planetId ∈ froms, ∀ pl, findPlanet s.planets planetId = some pl →
          (pl.owner = some pid →
            findPlanet (handleEvent gen s (.select pid froms percentage)).1.planets planetId =
              some { pl with
                units_count := pl.units_count - pyRound100 (pl.units_count * percentage) }) ∧
          (¬ pl.owner = some pid →
            findPlanet (handleEvent gen s (.select pid froms percentage)).1.planets planetId =
              some pl)) ∧
        (∀ planetId2, planetId2 ∉ froms →
          findPlanet (handleEvent gen s (.select pid froms percentage)).1.planets planetId2 =
            findPlanet s.planets planetId2) ∧
        (∀ r ∈ (handleEvent gen s (.select pid froms percentage)).1.players, r.id = pid →
          r.object_ids = q.object_ids ++ mintIds s.idGen (K : Int)) ∧
        (mintIds s.idGen (K : Int)).Nodup ∧
        (∀ i ∈ mintIds s.idGen (K : Int), ∀ r ∈ s.players, i ∉ r.object_ids) ∧
        (∀ r ∈ (handleEvent gen s (.select pid froms percentage)).1.players,
          ∀ i ∈ r.object_ids,
            i < (handleEvent gen s (.select pid froms percentage)).1.idGen)) ∧
    (∀ (s : ServerState) (ulog : List Int), MintLog s ulog →
      ulog = mintIds 0 s.idGen ∧ ulog.Nodup) ∧
    (∀ s : ServerState, Reachable s → GenAhead s) := by
  refine ⟨?_, ?_, fun s hs => reachable_genAhead hs⟩
  · intro gen s pid froms percentage q hg hq hcount hpct0 hpct1 hrange hnd hpres hfresh
    rcases selectLoop_spec pid percentage hpct0 hpct1 froms s [] q hnd hpres
      (fun id hid kv hkv => absurd hkv (List.not_mem_nil kv)) hq hcount hrange hfresh with
      ⟨K, s', newEntries, c1, c2, c3, c4, c5, c6, c7, c8, c9, c10, c11, c12, c13, c14, c15⟩
    have hEq : handleEvent gen s (.select pid froms percentage) =
        ({ s' with outbox := s'.outbox ++ [.selectEv newEntries] }, none) := by
      simp only [handleEvent, hg, if_true, hq]
      rw [c1]
      simp
    refine ⟨K, newEntries, by rw [hEq], ?_, ?_, c13, ?_, ?_, ?_,
      mintIds_nodup _ _, ?_, ?_⟩
    · rw [hEq]
      exact c2
    · rw [hEq]
      show s'.outbox ++ [.selectEv newEntries] = s.outbox ++ [.selectEv newEntries]
      rw [c3]
    · intro planetId hpid pl hpl
      rw [hEq]
      exact c12 planetId hpid pl hpl
    · intro x hx
      rw [hEq]
      exact c11 x hx
    · intro r hr hrid
      rw [hEq] at hr
      exact c9 r hr hrid
    · intro i hi r hr hir
      rcases mem_mintIds.mp hi with ⟨j, hj, rfl⟩
      have := hfresh r hr _ hir
      omega
    · intro r hr i hir
      rw [hEq] at hr ⊢
      exact c15 r hr i hir
  · intro s ulog hm
    have h := mintLog_spec hm
    exact ⟨h.2, by rw [h.2]; exact mintIds_nodup 0 s.idGen⟩

/-- Witness for C7.  Part (i) at a two-planet select: in wit5, player 1
selects 50% of owned planets 5 (10 units) and 7 (4 units); the handler
succeeds, planet 5 drops by round(10*50/100) = 5 and planet 7 by
round(4*50/100) = 2, and the 7 fresh ids 100..106 join player 1's set,
none previously issued.  Part (ii) at the concrete session A: its complete
mint log is [0], duplicate-free.  Part (iii) at the reachable state
trA7. -/
theorem C7_select_mint_witness :
    ((wit5.game_started = true ∧
      findPlayer wit5.players 1 =
        some { id := 1, ready := true, rendered := true, object_ids := [] } ∧
      wit5.players.countP (fun r => decide (r.id = 1)) ≤ 1 ∧
      (0 : Int) ≤ 50 ∧ (50 : Int) ≤ 100 ∧
      PlanetsInRange wit5.planets ∧
      ([5, 7] : List Int).Nodup ∧
      (∀ planetId ∈ ([5, 7] : List Int), (findPlanet wit5.planets planetId).isSome = true) ∧
      (∀ r ∈ wit5.players, ∀ i ∈ r.object_ids, i < wit5.idGen)) ∧
     (∃ (K : Nat) (punits : List (Int × List Int)),
        (handleEvent gen0 wit5 (.select 1 [5, 7] 50)).2 = none ∧
        (handleEvent gen0 wit5 (.select 1 [5, 7] 50)).1.idGen = wit5.idGen + (K : Int) ∧
        (handleEvent gen0 wit5 (.select 1 [5, 7] 50)).1.outbox =
          wit5.outbox ++ [.selectEv punits] ∧
        punits.map (fun kv => (kv.1, kv.2.length)) =
          (([5, 7] : List Int).filter (fun planetId =>
              (findPlanet wit5.planets planetId).any
                (fun pl2 => decide (pl2.owner = some 1)))).map
            (fun planetId => (planetId,
              (findPlanet wit5.planets planetId).elim 0
                (fun pl2 => (pyRound100 (pl2.units_count * 50)).toNat))) ∧
        (∀ r ∈ (handleEvent gen0 wit5 (.select 1 [5, 7] 50)).1.players, r.id = 1 →
          r.object_ids = [] ++ mintIds wit5.idGen (K : Int)) ∧
        (mintIds wit5.idGen (K : Int)).Nodup ∧
        (∀ i ∈ mintIds wit5.idGen (K : Int), ∀ r ∈ wit5.players, i ∉ r.object_ids) ∧
        (∀ planetId ∈ ([5, 7] : List Int), ∀ pl, findPlanet wit5.planets planetId = some pl →
          pl.owner = some 1 →
          findPlanet (handleEvent gen0 wit5 (.select 1 [5, 7] 50)).1.planets planetId =
            some { pl with units_count := pl.units_count - pyRound100 (pl.units_count * 50) }))) ∧
    (MintLog trA7 [0] ∧ ([0] : List Int) = mintIds 0 trA7.idGen ∧ ([0] : List Int).Nodup) ∧
    (Reachable trA7 ∧ GenAhead trA7) := by
  refine ⟨⟨⟨by decide, by decide, by decide, by decide, by decide, by decide, by decide,
    by decide, by decide⟩, ?_⟩, ?_, ?_⟩
  · rcases C7_select_mint.1 gen0 wit5 1 [5, 7] 50
      { id := 1, ready := true, rendered := true, object_ids := [] }
      (by decide) (by decide) (by decide) (by decide) (by decide) (by decide) (by decide)
      (by decide) (by decide) with
      ⟨K, punits, d1, d2, d3, d4, d5, d6, d7, d8, d9, d10⟩
    exact ⟨K, punits, d1, d2, d3, d4, d7, d8, d9,
      fun planetId hpid pl hpl hown => (d5 planetId hpid pl hpl).1 hown⟩
  · have m0 : MintLog initState [] := MintLog.init
    have m1 : MintLog trA1 [] := MintLog.step m0 (TStep.accept rfl rfl (by decide))
    have m2 : MintLog trA2 [] := MintLog.step m1 (TStep.accept rfl rfl (by decide))
    have m3 : MintLog trA3 [] := MintLog.step m2 (TStep.handle gen0 (.ready 1 true) (by decide))
    have m4 : MintLog trA4 [] := MintLog.step m3 (TStep.handle gen0 (.ready 2 true) (by decide))
    have m5 : MintLog trA5 [] := MintLog.step m4 (TStep.handle gen0 (.rendered 1) (by decide))
    have m6 : MintLog trA6 [] := MintLog.step m5 (TStep.handle gen0 (.rendered 2) (by decide))
    have m7 : MintLog trA7 [0] :=
      MintLog.step m6 (TStep.handle gen0 (.select 1 [1] 100) (by decide))
    have h := C7_select_mint.2.1 trA7 [0] m7
    exact ⟨m7, h.1, h.2⟩
  · have hr : Reachable trA7 := reachable_trA7
    exact ⟨hr, C7_select_mint.2.2 trA7 hr⟩

/-- C10: along every reachable execution, the player ids assigned at accept
time, in order, are exactly 1, 2, ..., next_player_id: consecutive positive
integers from 1.  The counter is never reset (the game-over reset clears
players and clients but not `next_player_id`), so each newly accepted
connection — in any later session too — receives an id strictly greater
than every id ever assigned. -/
theorem C10_player_ids (s : ServerState) (log : List Nat) (h : ReachLog s log) :
    log = (List.range s.next_player_id).map (fun n => n + 1) := by
  induction h with
  | init => rfl
  | step hreach hstep ih =>
    cases hstep with
    | accept h1 h2 h3 =>
      rw [ih]
      simp [acceptClient, List.range_succ]
    | handle gen e hrun =>
      rw [List.append_nil, ih]
      rename_i sa s2 lg
      have hn := handleEvent_next gen sa e
      rw [hrun] at hn
      simp only at hn
      rw [hn]
    | disconnect c hc =>
      rw [List.append_nil, ih]
      rfl

/-- Witness for C10 at a concrete derivation: after the first accept the
assignment log is [1], matching the counter. -/
theorem C10_player_ids_witness :
    ReachLog trA1 [1] ∧
    ([1] : List Nat) = (List.range trA1.next_player_id).map (fun n => n + 1) := by
  have hstep : ReachLog trA1 [1] :=
    ReachLog.step ReachLog.init (TStep.accept rfl rfl (by decide))
  exact ⟨hstep, C10_player_ids trA1 [1] hstep⟩

/-- C8: every outbound server event — a name plus payload fields, under the
well-formedness the server's payloads satisfy (escape-free ASCII strings,
frame below 2^31 bytes) — serializes to a 4-byte little-endian signed length
prefix followed by the UTF-8 JSON text, and decoding that frame yields back
exactly the original `{name, ...payload}` structure with no field lost,
changed or added. -/
theorem C8_wire_roundtrip (name : List Char) (payload : List (List Char × JVal))
    (hname : goodStr name = true) (hwf : wfFields payload = true)
    (hlen : (dumpsV (.jobj ((nameKey, .jstr name) :: payload))).length < 2147483648) :
    decodeFrame (request name payload) = some (.jobj ((nameKey, .jstr name) :: payload)) :=
  decodeFrame_request name payload hname hwf hlen

/-- Witness for C8: the game-over broadcast `{'name': 'gameover',
'winner': 1}` round-trips through the wire framing. -/
theorem C8_wire_roundtrip_witness :
    (goodStr ['g', 'a', 'm', 'e', 'o', 'v', 'e', 'r'] = true ∧
     wfFields [(['w', 'i', 'n', 'n', 'e', 'r'], JVal.jint 1)] = true ∧
     (dumpsV (.jobj ((nameKey, .jstr ['g', 'a', 'm', 'e', 'o', 'v', 'e', 'r']) ::
       [(['w', 'i', 'n', 'n', 'e', 'r'], JVal.jint 1)]))).length < 2147483648) ∧
    decodeFrame (request ['g', 'a', 'm', 'e', 'o', 'v', 'e', 'r']
        [(['w', 'i', 'n', 'n', 'e', 'r'], JVal.jint 1)]) =
      some (.jobj ((nameKey, .jstr ['g', 'a', 'm', 'e', 'o', 'v', 'e', 'r']) ::
        [(['w', 'i', 'n', 'n', 'e', 'r'], JVal.jint 1)])) :=
  ⟨⟨by decide, by decide, by decide⟩,
   C8_wire_roundtrip ['g', 'a', 'm', 'e', 'o', 'v', 'e', 'r']
     [(['w', 'i', 'n', 'n', 'e', 'r'], JVal.jint 1)] (by decide) (by decide) (by decide)⟩

/-- Witness for C2 amended: in wit4 player 1 captures planet 3 with
damage 7 from unit 7; afterwards only player 1 qualifies, so game over fires
naming player 1 and the session is reset. -/
theorem C2_gameover_amended_witness :
    (wit4.game_started = true ∧
     findPlayer wit4.players 1 =
       some { id := 1, ready := true, rendered := true, object_ids := [7, 9] } ∧
     findPlanet wit4.planets 3 = some { id := 3, owner := some 2, units_count := 5 } ∧
     1 ≤ ((damageMid wit4 1 3 7 ((some (7 : Int)).getD 1)
            { id := 1, ready := true, rendered := true, object_ids := [7, 9] }
            { id := 3, owner := some 2, units_count := 5 }).players.filter
        (qualifies (damageMid wit4 1 3 7 ((some (7 : Int)).getD 1)
            { id := 1, ready := true, rendered := true, object_ids := [7, 9] }
            { id := 3, owner := some 2, units_count := 5 }).planets)).length) ∧
    ((handleEvent gen0 wit4 (.damage 1 3 7 (some 7))).2 = none ∧
     (if ((damageMid wit4 1 3 7 ((some (7 : Int)).getD 1)
            { id := 1, ready := true, rendered := true, object_ids := [7, 9] }
            { id := 3, owner := some 2, units_count := 5 }).players.filter
          (qualifies (damageMid wit4 1 3 7 ((some (7 : Int)).getD 1)
            { id := 1, ready := true, rendered := true, object_ids := [7, 9] }
            { id := 3, owner := some 2, units_count := 5 }).planets)).length < 2
      then ∃ w,
        (((damageMid wit4 1 3 7 ((some (7 : Int)).getD 1)
            { id := 1, ready := true, rendered := true, object_ids := [7, 9] }
            { id := 3, owner := some 2, units_count := 5 }).players.filter
           (qualifies (damageMid wit4 1 3 7 ((some (7 : Int)).getD 1)
            { id := 1, ready := true, rendered := true, object_ids := [7, 9] }
            { id := 3, owner := some 2, units_count := 5 }).planets)).map
             (fun r => r.id)).head? = some w ∧
        (handleEvent gen0 wit4 (.damage 1 3 7 (some 7))).1 =
          { damageMid wit4 1 3 7 ((some (7 : Int)).getD 1)
              { id := 1, ready := true, rendered := true, object_ids := [7, 9] }
              { id := 3, owner := some 2, units_count := 5 } with
            readiness := false, game_started := false, players := [], clients := [],
            outbox := (damageMid wit4 1 3 7 ((some (7 : Int)).getD 1)
              { id := 1, ready := true, rendered := true, object_ids := [7, 9] }
              { id := 3, owner := some 2, units_count := 5 }).outbox ++ [.gameOver w] }
      else (handleEvent gen0 wit4 (.damage 1 3 7 (some 7))).1 =
        damageMid wit4 1 3 7 ((some (7 : Int)).getD 1)
          { id := 1, ready := true, rendered := true, object_ids := [7, 9] }
          { id := 3, owner := some 2, units_count := 5 })) :=
  ⟨⟨by decide, by decide, by decide, by decide⟩,
   C2_gameover_amended gen0 wit4 1 3 7 (some 7)
     { id := 1, ready := true, rendered := true, object_ids := [7, 9] }
     { id := 3, owner := some 2, units_count := 5 }
     (by decide) (by decide) (by decide) (by decide)⟩

end Servachok
